import Mathlib

/-!
# Verification of the MySQL wire-protocol packet codec

A shallow embedding, in Lean 4, of the packet cursor, primitive parsers,
length-coded codec, cast-field adapter and binary row parser of the
node-mysql2 fork under verification, together with theorems settling the
frozen claims about them.

Buffers are modelled as total functions `Nat → Nat` holding byte values
(reads out of the allocated window never occur in the settled claims'
domains).  JavaScript numbers that hold integers are modelled as `Nat`/`Int`
with explicit rounding to the nearest IEEE-754 double (`nearestDouble`)
where the source leaves the 53-bit exact range, and JavaScript's
shortest-round-trip `Number.prototype.toString` is modelled exactly
(`jsIntToString`).
-/

namespace MySQL2

/-! ### Decimal rendering and parsing -/

/-- The ASCII character of the decimal digit `d` (for `d < 10`). -/
def digitChar (d : Nat) : Char := Char.ofNat (48 + d)

/-- Fuel-driven decimal digit list of `n`, most significant first.
Fuel 30 is exact for every `n < 10^30`, far beyond the 64-bit values
appearing in the protocol. -/
def decDigitsAux : Nat → Nat → List Char
  | 0, _ => []
  | fuel + 1, n =>
    if n < 10 then [digitChar n] else decDigitsAux fuel (n / 10) ++ [digitChar (n % 10)]

/-- The decimal string of a natural number (model of JS decimal rendering of
an exact integer, e.g. `Long.prototype.toString` and `Number.prototype.toFixed`
on integral values below `10^21`). -/
def decStr (n : Nat) : String := ⟨decDigitsAux 30 n⟩

/-- Parse a string of decimal digits to a natural number (model of
`Long.fromString(s, true, 10)` before the final wrap to 64 bits, and of
`parseInt(s, 10)` before rounding to a double; both accept plain digit
strings in every use settled here). -/
def strToNatDec (s : String) : Nat :=
  s.data.foldl (fun acc c => acc * 10 + (c.toNat - 48)) 0

/-- Number of decimal digits of `n` (1 for `n = 0`), fuel-driven. -/
def digits10Aux : Nat → Nat → Nat
  | 0, _ => 1
  | fuel + 1, n => if n < 10 then 1 else digits10Aux fuel (n / 10) + 1

/-- Number of decimal digits of `n`. -/
def digits10 (n : Nat) : Nat := digits10Aux 30 n

/-- Number of trailing decimal zeros of `n` (0 for `n = 0`), fuel-driven. -/
def tz10Aux : Nat → Nat → Nat
  | 0, _ => 0
  | fuel + 1, n => if n % 10 = 0 ∧ n ≠ 0 then tz10Aux fuel (n / 10) + 1 else 0

/-- Number of trailing decimal zeros of `n`. -/
def tz10 (n : Nat) : Nat := tz10Aux 30 n

/-! ### IEEE-754 double model for integer values

A JavaScript number holding an integer below `2^53` is exact; above, it is
the nearest representable double.  All doubles arising in the settled
claims are integral, so the model stays inside `Nat`/`Int`. -/

/-- Bit length of `n` (0 for `n = 0`), fuel-driven. -/
def bitlenAux : Nat → Nat → Nat
  | 0, _ => 0
  | fuel + 1, n => if n = 0 then 0 else bitlenAux fuel (n / 2) + 1

/-- Bit length of `n`: the least `k` with `n < 2^k` (0 for `n = 0`). -/
def bitlen (n : Nat) : Nat := bitlenAux 80 n

/-- Round `v` to the nearest multiple of `2^e`, ties to the even multiple —
IEEE-754 round-to-nearest-even at granularity `2^e`. -/
def roundNearestEven (v : Nat) (e : Nat) : Nat :=
  let u := 2 ^ e
  let q := v / u
  let r := v % u
  if 2 * r < u then q * u
  else if u < 2 * r then (q + 1) * u
  else if q % 2 = 0 then q * u else (q + 1) * u

/-- The value of the IEEE-754 double nearest to the natural number `v`
(ties to even).  Exact below `2^53`; above, the mantissa keeps the top 53
bits of `v`. -/
def nearestDouble (v : Nat) : Nat :=
  if v < 2 ^ 53 then v else roundNearestEven v (bitlen v - 53)

/-- The value of the double nearest to the integer `i` (doubles are
symmetric around zero). -/
def nearestDoubleI (i : Int) : Int :=
  if i < 0 then -(nearestDouble i.natAbs : Int) else (nearestDouble i.natAbs : Int)

/-- Unit in the last place of the integral double `d ≥ 2^53`: the spacing
of doubles in `d`'s binade. -/
def uAbove (d : Nat) : Nat := 2 ^ (bitlen d - 53)

/-- Whether `d` is an exact power of two (where the spacing of doubles
halves going downward). -/
def isPow2 (d : Nat) : Bool := decide (d = 2 ^ (bitlen d - 1))

/-- Spacing of doubles just below `d`. -/
def uBelow (d : Nat) : Nat := if isPow2 d then uAbove d / 2 else uAbove d

/-- Whether the mantissa of the integral double `d ≥ 2^53` is even — in
that case the boundary reals exactly halfway to the neighbouring doubles
round *to* `d` (round-to-nearest-even), so `d`'s rounding interval is
closed at both ends. -/
def mantEven (d : Nat) : Bool := decide ((d / uAbove d) % 2 = 0)

/-- Significant digits needed to write the integer `w` exactly. -/
def sigDigits (w : Nat) : Nat := digits10 w - tz10 w

/-- `w` with its trailing decimal zeros stripped: the `s` of ECMA-262's
`s × 10^(n−k)` decomposition at minimal `k`. -/
def strippedMant (w : Nat) : Nat := w / 10 ^ tz10 w

/-- The integer whose decimal digits ECMA-262 `Number::toString` prints for
an integral double `d ∈ [2^53, 2^65]` (such values print in fixed notation,
being far below `10^21`).  ECMA-262 picks the decimal with the fewest
significant digits whose nearest double is `d`, breaking ties first by
closeness to `d` and then by evenness of the digit string.  The rounding
interval of `d` is `[d − uBelow d / 2, d + uAbove d / 2]`, closed exactly
when `d`'s mantissa is even; it is scanned here in doubled units so the
half-integer endpoints stay in `Nat`.  Only integer candidates are scanned:
the interval has width ≥ 1, so it contains an integer, and a fractional
decimal always needs more significant digits than the best integer in the
interval. -/
def jsShortestPick (d : Nat) : Nat :=
  let lo2 := 2 * d - uBelow d
  let hi2 := 2 * d + uAbove d
  let incl := mantEven d
  let wmin := lo2 / 2
  let cnt := hi2 / 2 + 2 - wmin
  let inInt : Nat → Bool := fun w =>
    (decide (lo2 < 2 * w) || (incl && decide (2 * w = lo2))) &&
    (decide (2 * w < hi2) || (incl && decide (2 * w = hi2)))
  let dist : Nat → Nat := fun w => if w ≤ d then d - w else w - d
  let betterThan : Nat → Nat → Bool := fun w best =>
    decide (sigDigits w < sigDigits best) ||
    (decide (sigDigits w = sigDigits best) &&
      (decide (dist w < dist best) ||
        (decide (dist w = dist best) && decide (strippedMant best % 2 = 1) &&
          decide (strippedMant w % 2 = 0))))
  ((List.range cnt).foldl
    (fun best i =>
      let w := wmin + i
      if inInt w then
        match best with
        | none => some w
        | some b => if betterThan w b then some w else some b
      else best)
    none).getD d

/-- ECMA-262 `Number::toString` on an integral double value `d < 2^65`:
exact decimal below `2^53` (an integer below `2^53` is always its own
shortest round-trip decimal, since its rounding interval has width ≤ 1),
shortest round-trip decimal above. -/
def jsIntToString (d : Nat) : String :=
  if d < 2 ^ 53 then decStr d else decStr (jsShortestPick d)

/-- `Number::toString` on a signed integral double. -/
def jsIntStr (i : Int) : String :=
  if i < 0 then "-" ++ jsIntToString i.natAbs else jsIntToString i.natAbs

/-- Exact decimal rendering of a signed integer.  This models both
`Long.prototype.toString` (always exact) and `Number.prototype.toFixed()`
with zero digits on an integral double below `10^21` (exact, unlike
`toString`'s shortest round-trip decimal). -/
def intDecStr (i : Int) : String :=
  if i < 0 then "-" ++ decStr i.natAbs else decStr i.natAbs

/-! ### Byte-string decoders -/

/-- Node `buffer.toString('ascii', a, b)`: each byte masked to 7 bits
becomes one character; empty when `b ≤ a`. -/
def asciiFromTo (buf : Nat → Nat) (a b : Nat) : String :=
  ⟨(List.range (b - a)).map (fun i => Char.ofNat (buf (a + i) % 128))⟩

/-- Node `'binary'` (latin1) decoding of the byte range `[a, b)`: each byte
becomes the character of its code point. -/
def latin1FromTo (buf : Nat → Nat) (a b : Nat) : String :=
  ⟨(List.range (b - a)).map (fun i => Char.ofNat (buf (a + i) % 256))⟩

/-- Latin1 decoding of a byte list (model of `PacketParser.decode` for the
`'binary'` encoding, and of `buffer.toString()` on ASCII payloads such as
the five SQL-state bytes). -/
def latin1OfList (bs : List Nat) : String := ⟨bs.map (fun b => Char.ofNat (b % 256))⟩

/-- Reinterpret the unsigned `bits`-bit value `v` as a two's-complement
signed integer (model of Node's `readIntNN` over the unsigned byte value). -/
def asSigned (bits : Nat) (v : Nat) : Int :=
  if v < 2 ^ (bits - 1) then (v : Int) else (v : Int) - 2 ^ bits

/-- Accumulate the decimal digits at byte positions `[o, o + fuel)` exactly
(model of the JS `result = result * 10 + (buffer[pos] - 48)` loops; the
double arithmetic there is exact because every guarded path keeps the value
below `2^53`, and every settled claim feeds ASCII digit bytes). -/
def digitFoldAux (buf : Nat → Nat) : Nat → Nat → Nat → Nat
  | 0, _, acc => acc
  | fuel + 1, o, acc => digitFoldAux buf fuel (o + 1) (acc * 10 + (buf o - 48))

/-- The decimal value of the digit bytes in `[o, e)`. -/
def digitFold (buf : Nat → Nat) (o e : Nat) : Nat := digitFoldAux buf (e - o) o 0

/-- `parseInt(s, 10)` on an optionally signed decimal digit string: the
exact value rounded to the nearest double.  (The general `parseInt` also
skips whitespace and stops at the first non-digit; the strings fed to it in
this codec are pure sign+digit runs.) -/
def jsParseIntDec (s : String) : Int :=
  let val : List Char → Nat := fun l => l.foldl (fun acc c => acc * 10 + (c.toNat - 48)) 0
  match s.data with
  | '-' :: rest => -(nearestDouble (val rest) : Int)
  | '+' :: rest => (nearestDouble (val rest) : Int)
  | l => (nearestDouble (val l) : Int)

/-- Whether a character is an ASCII decimal digit. -/
def isDigitCh (c : Char) : Bool := decide (48 ≤ c.toNat) && decide (c.toNat ≤ 57)

/-! ### A dynamic JavaScript value

The default 64-bit readers coerce a `long.js` `Long` object to a string and
then call a `Long` method on the result; expressing that faithfully needs a
small dynamically-typed value universe with method dispatch that can fail. -/

/-- A dynamically typed JavaScript value: a `long.js` `Long` object, a
primitive string, or a primitive number (an integral double, kept exact as
`Int`). -/
inductive JsDyn
  | jlong (v : Int) (unsigned : Bool)
  | jstr (s : String)
  | jnum (i : Int)
deriving DecidableEq, Repr

/-- JavaScript `.toString()`: `Long.prototype.toString` renders the exact
decimal; a string returns itself; `Number.prototype.toString` renders the
shortest round-trip decimal. -/
def jsDynToString : JsDyn → JsDyn
  | .jlong v _ => .jstr (intDecStr v)
  | .jstr s => .jstr s
  | .jnum i => .jstr (jsIntStr i)

/-- JavaScript `.toNumber()` method dispatch: only `Long` objects carry a
`toNumber` method (`Long.prototype.toNumber`, which rounds to the nearest
double); on a string or number primitive the property access yields
`undefined` and the call throws a `TypeError`. -/
def jsDynToNumber : JsDyn → Except String JsDyn
  | .jlong v _ => .ok (.jnum (nearestDoubleI v))
  | .jstr _ => .error "TypeError: long.toNumber is not a function"
  | .jnum _ => .error "TypeError: toNumber is not a function"

/-- The value a MySQL cell decoder produces: JS `NaN`, `null`, an integral
double, or a string. -/
inductive JsIntRes
  | nan
  | null
  | num (d : Int)
  | str (s : String)
deriving DecidableEq, Repr

/-! ### `PacketParser` — the primitive codec (src `parsers/packet_parser`) -/

namespace PacketParser

/-- `buffer[offset]` — an unsigned byte. -/
def uint8 (buffer : Nat → Nat) (offset : Nat) : Nat := buffer offset

/-- `buffer.readInt8(offset)`. -/
def int8 (buffer : Nat → Nat) (offset : Nat) : Int := asSigned 8 (buffer offset)

/-- `buffer.readUInt16LE(offset)`. -/
def uint16 (buffer : Nat → Nat) (offset : Nat) : Nat :=
  buffer offset + 2 ^ 8 * buffer (offset + 1)

/-- `buffer.readInt16LE(offset)`. -/
def int16 (buffer : Nat → Nat) (offset : Nat) : Int := asSigned 16 (uint16 buffer offset)

/-- `buffer.readUInt32LE(offset)`. -/
def uint32 (buffer : Nat → Nat) (offset : Nat) : Nat :=
  buffer offset + 2 ^ 8 * buffer (offset + 1) + 2 ^ 16 * buffer (offset + 2) +
    2 ^ 24 * buffer (offset + 3)

/-- `buffer.readInt32LE(offset)`. -/
def int32 (buffer : Nat → Nat) (offset : Nat) : Int := asSigned 32 (uint32 buffer offset)

/-- The unsigned value of `new Long(word0, word1, true)` built from the two
little-endian 32-bit words at `offset` (`PacketParser.uint64Long`): the
Long's value is `lowU + 2^32 · highU` regardless of the words' sign bits. -/
def uint64LongVal (buffer : Nat → Nat) (offset : Nat) : Nat :=
  uint32 buffer offset + 2 ^ 32 * uint32 buffer (offset + 4)

/-- The signed value of `new Long(word0, word1, false)`
(`PacketParser.int64Long`). -/
def int64LongVal (buffer : Nat → Nat) (offset : Nat) : Int :=
  asSigned 64 (uint64LongVal buffer offset)

/-- `PacketParser.uint64Number`: `uint64Long(...).toNumber()`, the nearest
double to the unsigned 64-bit value (`(high >>> 0) * 2^32 + (low >>> 0)`
rounds once). -/
def uint64Number (buffer : Nat → Nat) (offset : Nat) : Int :=
  nearestDoubleI (uint64LongVal buffer offset)

/-- `PacketParser.int64Number`.  When the sign bit of the high word is
clear the source computes `word0 + 2^32 * word1` with the *signed* low word
`word0` — faithfully kept here (for a low word ≥ 2^31 this differs from the
encoded value by `2^32`).  Otherwise it rounds the signed Long to the
nearest double. -/
def int64Number (buffer : Nat → Nat) (offset : Nat) : Int :=
  let word0 := int32 buffer offset
  let word1 := int32 buffer (4 + offset)
  if uint32 buffer (4 + offset) < 2 ^ 31 then word0 + 2 ^ 32 * word1
  else nearestDoubleI (int64LongVal buffer offset)

/-- `PacketParser.uint64String`: the exact decimal of the unsigned value. -/
def uint64String (buffer : Nat → Nat) (offset : Nat) : String :=
  decStr (uint64LongVal buffer offset)

/-- `PacketParser.int64String`: the exact decimal of the signed value. -/
def int64String (buffer : Nat → Nat) (offset : Nat) : String :=
  intDecStr (int64LongVal buffer offset)

/-- `PacketParser.uint64NumberIfPossible`, translated line by line:

```js
const long = PacketParser.uint64Long(buffer, offset).toString();
const resNumber = long.toNumber();
const resString = long.toString();
return resNumber.toString() === resString ? resNumber : resString;
```

The first line coerces the `Long` to a *string*; the second line then calls
`.toNumber()` on that string, which throws a `TypeError` — so the function
never returns normally. -/
def uint64NumberIfPossible (buffer : Nat → Nat) (offset : Nat) : Except String JsIntRes := do
  let long : JsDyn := jsDynToString (.jlong (uint64LongVal buffer offset) true)
  let resNumber ← jsDynToNumber long
  let resString := jsDynToString long
  match jsDynToString resNumber, resString with
  | .jstr a, .jstr b =>
    match resNumber with
    | .jnum i => return (if a = b then .num i else .str b)
    | _ => return .str b
  | _, _ => return .nan

/-- `PacketParser.int64NumberIfPossible`: same shape as the unsigned
variant over the signed Long — and the same stray `.toString()` before
`.toNumber()`, so it too always throws. -/
def int64NumberIfPossible (buffer : Nat → Nat) (offset : Nat) : Except String JsIntRes := do
  let long : JsDyn := jsDynToString (.jlong (int64LongVal buffer offset) false)
  let resNumber ← jsDynToNumber long
  let resString := jsDynToString long
  match jsDynToString resNumber, resString with
  | .jstr a, .jstr b =>
    match resNumber with
    | .jnum i => return (if a = b then .num i else .str b)
    | _ => return .str b
  | _, _ => return .nan

/-- `PacketParser.intAscii(buffer, offset, length)`.  Note the two string
slices: the source passes `length` as the *end* argument of
`buffer.toString('ascii', offset, length)` (its own `end = offset + length`
is not used there), so for a nonzero `offset` the big-number paths decode
the byte range `[offset, length)` instead of `[offset, offset + length)`. -/
def intAscii (buffer : Nat → Nat) (offset length : Nat) : JsIntRes :=
  if length = 0 then .nan
  else
    let e := offset + length
    let isNegative := buffer offset = 45
    let pos1 := if isNegative then offset + 1 else offset
    let nd1 := if isNegative then length - 1 else length
    let pos2 := if buffer pos1 = 43 then pos1 + 1 else pos1
    let numDigits := if buffer pos1 = 43 then nd1 - 1 else nd1
    if 16 < numDigits then .str (asciiFromTo buffer offset length)
    else if numDigits = 16 ∧ buffer pos2 = 0x39 then
      let s := asciiFromTo buffer offset length
      let result : Int := jsParseIntDec s
      -- `result.toFixed() === str ? result : str`
      if intDecStr result = s then .num result else .str s
    else
      let mag := digitFold buffer pos2 e
      .num (if isNegative then -(mag : Int) else (mag : Int))

/-- `PacketParser.alwaysNull`. -/
def alwaysNull : JsIntRes := .null

end PacketParser

/-- The arguments a `new Date(y, monthIndex, d, H, M, S, ms)` construction
receives, or the invalid date.  JS `Date` normalisation (month overflow,
local time zone) is outside the codec; the claims about `dateTime` concern
which bytes feed which argument.  `monthIndex` is `m − 1` and may be `−1`;
`micros` carries the microsecond value whose thousandth is passed as `ms`
(kept in µs so the model stays in `Nat`). -/
inductive JsDate
  | invalid
  | date (y : Nat) (monthIndex : Int) (d H M S : Nat) (micros : Nat)
deriving DecidableEq, Repr

namespace PacketParser

/-- `leftPad(num, value)` from the parsers module: the decimal rendering of
`value`, left-padded with zeros to at least `num` characters (the source
pads with a 12-zero template and keeps the last `num` characters). -/
def leftPad (num : Nat) (value : Nat) : String :=
  let s := decStr value
  if num ≤ s.data.length then s
  else
    let t := ("000000000000" ++ s).data
    ⟨t.drop (t.length - num)⟩

/-- `PacketParser.dateTime(buffer, offset, length)` — binary DATETIME to a
`Date`.  Reads `year:u16le` at `+0`, month at `+2`, **day at `+3`**, then
(if `length > 6`) H/M/S at `+4..+6`, then (if `length > 10`) micros at
`+7`; all-zero fields yield the invalid date.  (`length > 6` implies
`length > 3`, so the nested guards flatten.) -/
def dateTime (buffer : Nat → Nat) (offset length : Nat) : JsDate :=
  let y := if 3 < length then uint16 buffer offset else 0
  let m := if 3 < length then uint8 buffer (2 + offset) else 0
  let d := if 3 < length then uint8 buffer (3 + offset) else 0
  let H := if 6 < length then uint8 buffer (4 + offset) else 0
  let M := if 6 < length then uint8 buffer (5 + offset) else 0
  let S := if 6 < length then uint8 buffer (6 + offset) else 0
  let micros := if 10 < length then uint32 buffer (7 + offset) else 0
  if y ≠ 0 ∨ m ≠ 0 ∨ d ≠ 0 ∨ H ≠ 0 ∨ M ≠ 0 ∨ S ≠ 0 ∨ micros ≠ 0 then
    .date y ((m : Int) - 1) d H M S micros
  else .invalid

/-- `PacketParser.dateTimeString(buffer, offset, length, decimals)` —
binary DATETIME to `YYYY-MM-DD[ HH:MM:SS[.ffffff]]`.  Faithfully to the
source, the *day* is read from `+ 4 + offset` (where `dateTime` reads
`+ 3 + offset`), coinciding with the hour byte; micros are zero-padded to 6
digits and then truncated to `decimals` characters when `decimals` is
nonzero and smaller.  When `length ≤ 3` the local `str` is never assigned
and the JS function returns `undefined` (`none` here). -/
def dateTimeString (buffer : Nat → Nat) (offset length decimals : Nat) : Option String :=
  if 3 < length then
    let y := uint16 buffer offset
    let m := uint8 buffer (2 + offset)
    let d := uint8 buffer (4 + offset)
    let base := leftPad 4 y ++ "-" ++ leftPad 2 m ++ "-" ++ leftPad 2 d
    if 6 < length then
      let H := uint8 buffer (4 + offset)
      let M := uint8 buffer (5 + offset)
      let S := uint8 buffer (6 + offset)
      let withTime := base ++ " " ++ leftPad 2 H ++ ":" ++ leftPad 2 M ++ ":" ++ leftPad 2 S
      if 10 < length then
        let micros := leftPad 6 (uint32 buffer (7 + offset))
        let micros := if decimals ≠ 0 ∧ decimals < micros.data.length
          then ⟨micros.data.take decimals⟩ else micros
        some (withTime ++ "." ++ micros)
      else some withTime
    else some base
  else none

/-- A value produced by `PacketParser._time`: a string under the `String`
conversion, signed total milliseconds under the `Number` conversion. -/
inductive TimeVal
  | tstr (s : String)
  | tnum (i : Int)
deriving DecidableEq, Repr

/-- `PacketParser._time(conversion, buffer, offset, length)` — binary TIME.
`sign` is −1 iff `length ≠ 0` and the flag byte is nonzero; days/H/M/S are
read at `+1..+7` when `length > 7` and micros at `+8` when `length > 11`.
String form joins `[d ? d*24+H : H, MM, SS]` with `:` and appends
`.ffffff` when micros is nonzero; number form floors micros to
milliseconds. -/
def timeValue (asNumber : Bool) (buffer : Nat → Nat) (offset length : Nat) : TimeVal :=
  let neg := length ≠ 0 ∧ uint8 buffer offset ≠ 0
  let d := if 7 < length then uint32 buffer (1 + offset) else 0
  let H := if 7 < length then uint8 buffer (5 + offset) else 0
  let M := if 7 < length then uint8 buffer (6 + offset) else 0
  let S := if 7 < length then uint8 buffer (7 + offset) else 0
  let micros := if 11 < length then uint32 buffer (8 + offset) else 0
  if asNumber then
    let ms := ((S + (M + (H + d * 24) * 60) * 60) * 1000 + micros / 1000 : Nat)
    .tnum ((if neg then -1 else 1) * (ms : Nat))
  else
    .tstr ((if neg then "-" else "") ++
      decStr (if d ≠ 0 then d * 24 + H else H) ++ ":" ++ leftPad 2 M ++ ":" ++ leftPad 2 S ++
      (if micros ≠ 0 then "." ++ leftPad 6 micros else ""))

/-- `PacketParser.timeString`. -/
def timeString (buffer : Nat → Nat) (offset length : Nat) : TimeVal :=
  timeValue false buffer offset length

end PacketParser

/-! ### `Packet` — the packet cursor (src `packets/packet`)

A packet owns a window `[start, pend)` of a shared byte buffer (`blen` is
the buffer's allocated length, used only by the null-terminator scan) and a
cursor `offset`.  Construction sets `offset = start + 4`, past the 4-byte
MySQL frame header. -/

structure Pkt where
  seq : Nat
  buf : Nat → Nat
  blen : Nat
  start : Nat
  offset : Nat
  pend : Nat

/-- `new Packet(id, buffer, start, end)`. -/
def Pkt.new (id : Nat) (buffer : Nat → Nat) (blen start pend : Nat) : Pkt :=
  { seq := id, buf := buffer, blen := blen, start := start, offset := start + 4, pend := pend }

namespace Pkt

/-- `packet.reset()`. -/
def reset (p : Pkt) : Pkt := { p with offset := p.start + 4 }

/-- `packet.length()`. -/
def length (p : Pkt) : Nat := p.pend - p.start

/-- `packet.haveMoreData()`. -/
def haveMoreData (p : Pkt) : Bool := decide (p.offset < p.pend)

/-- `packet.skip(num)` (every call site passes a non-negative count). -/
def skip (p : Pkt) (num : Nat) : Pkt := { p with offset := p.offset + num }

/-- The bytes at positions `[a, a + len)` of a buffer (a Node
`buffer.slice` of an in-window range). -/
def bytesAt (buf : Nat → Nat) (a len : Nat) : List Nat :=
  (List.range len).map (fun i => buf (a + i))

/-- `packet.readInt8()` — unsigned byte, advances 1. -/
def readInt8 (p : Pkt) : Nat × Pkt :=
  (p.buf p.offset, { p with offset := p.offset + 1 })

/-- `packet.readInt16()` — `readUInt16LE`, advances 2. -/
def readInt16 (p : Pkt) : Nat × Pkt :=
  (PacketParser.uint16 p.buf p.offset, { p with offset := p.offset + 2 })

/-- `packet.readInt24()` — `readInt16() + (readInt8() << 16)`. -/
def readInt24 (p : Pkt) : Nat × Pkt :=
  let (lo, p1) := p.readInt16
  let (hi, p2) := p1.readInt8
  (lo + hi * 2 ^ 16, p2)

/-- `packet.readInt32()` — `readUInt32LE`, advances 4. -/
def readInt32 (p : Pkt) : Nat × Pkt :=
  (PacketParser.uint32 p.buf p.offset, { p with offset := p.offset + 4 })

/-- `packet.readSInt8()`. -/
def readSInt8 (p : Pkt) : Int × Pkt :=
  (PacketParser.int8 p.buf p.offset, { p with offset := p.offset + 1 })

/-- `packet.readSInt16()`. -/
def readSInt16 (p : Pkt) : Int × Pkt :=
  (PacketParser.int16 p.buf p.offset, { p with offset := p.offset + 2 })

/-- `packet.readSInt32()`. -/
def readSInt32 (p : Pkt) : Int × Pkt :=
  (PacketParser.int32 p.buf p.offset, { p with offset := p.offset + 4 })

/-- `packet.readInt64JSNumber()` — advances 8, value via `uint64Number`. -/
def readInt64JSNumber (p : Pkt) : Int × Pkt :=
  (PacketParser.uint64Number p.buf p.offset, { p with offset := p.offset + 8 })

/-- `packet.readSInt64JSNumber()` — advances 8, value via `int64Number`. -/
def readSInt64JSNumber (p : Pkt) : Int × Pkt :=
  (PacketParser.int64Number p.buf p.offset, { p with offset := p.offset + 8 })

/-- `packet.readInt64String()`. -/
def readInt64String (p : Pkt) : String × Pkt :=
  (PacketParser.uint64String p.buf p.offset, { p with offset := p.offset + 8 })

/-- `packet.readSInt64String()`. -/
def readSInt64String (p : Pkt) : String × Pkt :=
  (PacketParser.int64String p.buf p.offset, { p with offset := p.offset + 8 })

/-- `packet.readInt64()` — advances 8 and then calls
`uint64NumberIfPossible`, which always throws (see that definition); the
error aborts the read after the cursor has moved. -/
def readInt64 (p : Pkt) : Except String JsIntRes × Pkt :=
  (PacketParser.uint64NumberIfPossible p.buf p.offset, { p with offset := p.offset + 8 })

/-- `packet.readSInt64()` — advances 8 and then calls
`int64NumberIfPossible`, which always throws. -/
def readSInt64 (p : Pkt) : Except String JsIntRes × Pkt :=
  (PacketParser.int64NumberIfPossible p.buf p.offset, { p with offset := p.offset + 8 })

/-- `packet.isEOF()`. -/
def isEOF (p : Pkt) : Bool := decide (p.buf p.offset = 0xfe) && decide (p.length < 13)

/-- `packet.readFloat()` — advances 4.  The IEEE-754 bit decoding is
outside the integer model; the reader's value is returned as the raw four
bytes (the settled claims about it concern only the cursor). -/
def readFloat (p : Pkt) : List Nat × Pkt :=
  (bytesAt p.buf p.offset 4, { p with offset := p.offset + 4 })

/-- `packet.readDouble()` — advances 8, value as the raw eight bytes. -/
def readDouble (p : Pkt) : List Nat × Pkt :=
  (bytesAt p.buf p.offset 8, { p with offset := p.offset + 8 })

/-- `packet.readBuffer(len)`; `len` omitted reads to the window's end. -/
def readBuffer (p : Pkt) (len : Option Nat) : List Nat × Pkt :=
  let l := len.getD (p.pend - p.offset)
  (bytesAt p.buf p.offset l, { p with offset := p.offset + l })

/-- `packet.readString(len, encoding)`; the decoder for `encoding` is
passed as a function. -/
def readString (p : Pkt) (len : Option Nat) (dec : List Nat → String) : String × Pkt :=
  let l := len.getD (p.pend - p.offset)
  (dec (bytesAt p.buf p.offset l), { p with offset := p.offset + l })

/-- A length-coded-number read result: SQL NULL, a JS number (integral
double), or a decimal string. -/
inductive LcnVal
  | null
  | num (d : Int)
  | str (s : String)
deriving DecidableEq, Repr

/-- `packet.readLengthCodedNumberExt(tag, bigNumberStrings, signed)`.  An
unknown tag (`0xff`) throws (`none`).  In the 8-byte case the source reads
two unsigned 32-bit words; a zero high word returns the low word, a high
word below `2^21` returns the exact product-sum, and otherwise the value
goes through a `Long` whose `toNumber()` (nearest double) is kept only when
its `toString()` (shortest round-trip decimal) equals the Long's exact
decimal. -/
def readLengthCodedNumberExt (p : Pkt) (tag : Nat) (bigNumberStrings signed : Bool) :
    Option (LcnVal × Pkt) :=
  if tag = 0xfb then some (.null, p)
  else if tag = 0xfc then
    let (b0, p1) := p.readInt8
    let (b1, p2) := p1.readInt8
    some (.num (b0 + b1 * 2 ^ 8 : Nat), p2)
  else if tag = 0xfd then
    let (b0, p1) := p.readInt8
    let (b1, p2) := p1.readInt8
    let (b2, p3) := p2.readInt8
    some (.num (b0 + b1 * 2 ^ 8 + b2 * 2 ^ 16 : Nat), p3)
  else if tag = 0xfe then
    let (word0, p1) := p.readInt32
    let (word1, p2) := p1.readInt32
    if word1 = 0 then some (.num (word0 : Nat), p2)
    else if word1 < 2097152 then some (.num (word1 * 2 ^ 32 + word0 : Nat), p2)
    else
      let v : Int := if signed then asSigned 64 (word0 + 2 ^ 32 * word1) else
        ((word0 + 2 ^ 32 * word1 : Nat) : Int)
      let resNumber : Int := nearestDoubleI v
      let resString : String := intDecStr v
      let res : LcnVal := if jsIntStr resNumber = resString then .num resNumber else .str resString
      some ((if bigNumberStrings then .str resString else res), p2)
  else none

/-- `packet.readLengthCodedNumber(bigNumberStrings, signed)`. -/
def readLengthCodedNumber (p : Pkt) (bigNumberStrings signed : Bool) : Option (LcnVal × Pkt) :=
  let (byte1, p1) := p.readInt8
  if byte1 < 251 then some (.num (byte1 : Nat), p1)
  else p1.readLengthCodedNumberExt byte1 bigNumberStrings signed

/-- `packet.readLengthCodedString(encoding)`.  A huge 8-byte length that
surfaces as a string would be appended to `offset` by JS `+` as a string,
destroying the cursor; no packet can hold such a payload and the model
treats it as a failure. -/
def readLengthCodedString (p : Pkt) (dec : List Nat → String) :
    Option (Option String × Pkt) :=
  match p.readLengthCodedNumber false false with
  | none => none
  | some (.null, p1) => some (none, p1)
  | some (.num d, p1) =>
    let l := d.toNat
    some (some (dec (bytesAt p1.buf p1.offset l)), { p1 with offset := p1.offset + l })
  | some (.str _, _) => none

/-- `packet.readLengthCodedBuffer()`. -/
def readLengthCodedBuffer (p : Pkt) : Option (Option (List Nat) × Pkt) :=
  match p.readLengthCodedNumber false false with
  | none => none
  | some (.null, p1) => some (none, p1)
  | some (.num d, p1) =>
    let (b, p2) := p1.readBuffer (some d.toNat)
    some (some b, p2)
  | some (.str _, _) => none

/-- The scan of `readNullTerminatedString`: the first index `i ≥ start`
where the byte is zero or the buffer ends (`buffer[i]` is `undefined`, so
falsy, from `blen` on).  Fuel `blen + 1` always suffices. -/
def nulScanAux (buf : Nat → Nat) (blen : Nat) : Nat → Nat → Nat
  | 0, i => i
  | fuel + 1, i => if i < blen ∧ buf i ≠ 0 then nulScanAux buf blen fuel (i + 1) else i

/-- `packet.readNullTerminatedString(encoding)`: decode up to the NUL (or
buffer end) and advance past it. -/
def readNullTerminatedString (p : Pkt) (dec : List Nat → String) : String × Pkt :=
  let e := nulScanAux p.buf p.blen (p.blen + 1) p.offset
  (dec (bytesAt p.buf p.offset (e - p.offset)), { p with offset := e + 1 })

/-- `packet.readDateTime()`: one length byte (a `0xfb` length byte returns
SQL NULL after the single byte), then a `length`-byte DATETIME payload. -/
def readDateTime (p : Pkt) : Option JsDate × Pkt :=
  let (len, p1) := p.readInt8
  if len = 0xfb then (none, p1)
  else (some (PacketParser.dateTime p1.buf p1.offset len), { p1 with offset := p1.offset + len })

/-- `packet.readDateTimeString(decimals)`: one length byte (no NULL
shortcut here), then the payload rendered as a string. -/
def readDateTimeString (p : Pkt) (decimals : Nat) : Option String × Pkt :=
  let (len, p1) := p.readInt8
  (PacketParser.dateTimeString p1.buf p1.offset len decimals, { p1 with offset := p1.offset + len })

/-- `packet.readTimeString(convertTtoMs)`. -/
def readTimeString (p : Pkt) (convertTtoMs : Bool) : PacketParser.TimeVal × Pkt :=
  let (len, p1) := p.readInt8
  (PacketParser.timeValue convertTtoMs p1.buf p1.offset len, { p1 with offset := p1.offset + len })

/-- `Number(s)` on an ASCII-decoded cell: an empty string is `0`, an
optionally signed digit run is the exact value rounded to the nearest
double, anything else is `NaN` (whitespace/hex forms never reach this
codec). -/
def jsNumberDec (s : String) : JsIntRes :=
  let val : List Char → Nat := fun l => l.foldl (fun acc c => acc * 10 + (c.toNat - 48)) 0
  match s.data with
  | [] => .num 0
  | '-' :: rest =>
    if rest ≠ [] ∧ rest.all isDigitCh then .num (-(nearestDouble (val rest) : Int)) else .nan
  | '+' :: rest =>
    if rest ≠ [] ∧ rest.all isDigitCh then .num ((nearestDouble (val rest) : Int)) else .nan
  | l => if l.all isDigitCh then .num ((nearestDouble (val l) : Int)) else .nan

/-- The return site a `parseInt` execution exits through; the source's
comments name the `numDigits > 16` branch the dead one. -/
inductive PISite
  | nullLen      -- `len === null`
  | fastNoBig    -- `len >= 14 && !supportBigNumbers`
  | zeroLen      -- `len === 0`
  | big15Num     -- `numDigits >= 15`, exact round-trip, returns a number
  | big15Str     -- `numDigits >= 15`, returns a string
  | bigGt16      -- `numDigits > 16` (after `numDigits >= 15` has already returned)
  | plainNum     -- digit loop, `!supportBigNumbers`
  | checkedNum   -- digit loop + big-number check, number
  | checkedStr   -- digit loop + big-number check, string
deriving DecidableEq, Repr

/-- `packet.parseInt(len, supportBigNumbers)`, instrumented with the return
site it exits through.  Control flow follows the source statement by
statement; the two `supportBigNumbers` early returns are else-chained
because each of them returns. -/
def parseIntT (p : Pkt) (len : Option Nat) (supportBigNumbers : Bool) :
    JsIntRes × Pkt × PISite :=
  match len with
  | none => (.null, p, .nullLen)
  | some len =>
    if 14 ≤ len ∧ ¬supportBigNumbers then
      let s := asciiFromTo p.buf p.offset (p.offset + len)
      (jsNumberDec s, { p with offset := p.offset + len }, .fastNoBig)
    else if len = 0 then (.num 0, p, .zeroLen)
    else
      let start := p.offset
      let e := p.offset + len
      let neg := p.buf p.offset = 45
      let o1 := if neg then p.offset + 1 else p.offset
      let sign : Int := if neg then -1 else 1
      let numDigits := e - o1
      if supportBigNumbers ∧ 15 ≤ numDigits then
        let s := latin1FromTo p.buf o1 e
        let result : Nat := nearestDouble (strToNatDec s)
        if jsIntToString result = s then
          (.num (sign * result), { p with offset := e }, .big15Num)
        else
          (.str (if neg then "-" ++ s else s), { p with offset := e }, .big15Str)
      else if supportBigNumbers ∧ 16 < numDigits then
        let s := latin1FromTo p.buf o1 e
        (.str (if neg then "-" ++ s else s), { p with offset := e }, .bigGt16)
      else
        let o2 := if p.buf o1 = 43 then o1 + 1 else o1
        let num : Int := sign * digitFold p.buf o2 e
        if ¬supportBigNumbers then (.num num, { p with offset := e }, .plainNum)
        else
          let s := asciiFromTo p.buf start e
          if jsIntStr num = s then (.num num, { p with offset := e }, .checkedNum)
          else (.str s, { p with offset := e }, .checkedStr)

/-- `packet.parseLengthCodedInt(supportBigNumbers)`, with the `parseInt`
return-site instrumentation.  The length-coded number is coerced to the
`len` argument: a string length (an 8-byte length ≥ 2^53) is numerically
coerced in `parseInt`'s comparisons; its digit value is used here (such a
length exceeds any real packet and only the return site matters to the
settled claim). -/
def parseLengthCodedIntT (p : Pkt) (supportBigNumbers : Bool) :
    Option (JsIntRes × Pkt × PISite) :=
  match p.readLengthCodedNumber false false with
  | none => none
  | some (v, p1) =>
    let len : Option Nat :=
      match v with
      | .null => none
      | .num d => some d.toNat
      | .str s => some (strToNatDec s)
    some (p1.parseIntT len supportBigNumbers)

end Pkt

/-- Modelled from the spec: the static error table (`constants/errors.js`)
is not under `src/`; the spec fixes the single entry exercised by the
claims, `1096 ↦ "ER_NO_TABLES_USED"` (scenario S7).  JavaScript property
lookup on the table yields `undefined` — `none` here — for any errno the
table does not map. -/
def ErrorCodeToName (errno : Nat) : Option String :=
  if errno = 1096 then some "ER_NO_TABLES_USED" else none

/-- The structured error `asError` produces: `message` is the `Error`
constructor argument; `code` is the table lookup (`none` models the
`undefined` a missing property yields). -/
structure MysqlError where
  message : String
  code : Option String
  errno : Nat
  sqlState : String
  sqlMessage : String
deriving DecidableEq, Repr

namespace Pkt

/-- `packet.asError(encoding)`: reset to `start + 4`, consume the field
count byte (`0xFF`), the 2-byte little-endian errno, an optional `0x23`
marker followed by five SQL-state bytes (`readBuffer(5).toString()`), and
the remainder as the message under `encoding` (`dec`). -/
def asError (p : Pkt) (dec : List Nat → String) : MysqlError :=
  let p0 := p.reset
  let (_, p1) := p0.readInt8
  let (errorCode, p2) := p1.readInt16
  let (sqlState, p3) :=
    if p2.buf p2.offset = 0x23 then
      let p2' := p2.skip 1
      let (b, pb) := p2'.readBuffer (some 5)
      (latin1OfList b, pb)
    else ("", p2)
  let (message, _) := p3.readString none dec
  { message := message, code := ErrorCodeToName errorCode, errno := errorCode,
    sqlState := sqlState, sqlMessage := message }

/-! #### Writers -/

/-- `packet.writeInt8(n)` (callers stay within `0..255`, which Node's
`writeUInt8` validates). -/
def writeInt8 (p : Pkt) (n : Nat) : Pkt :=
  { p with buf := Function.update p.buf p.offset n, offset := p.offset + 1 }

/-- `packet.writeInt16(n)` — `writeUInt16LE`. -/
def writeInt16 (p : Pkt) (n : Nat) : Pkt :=
  { p with
    buf := Function.update (Function.update p.buf p.offset (n % 256)) (p.offset + 1) (n / 256 % 256)
    offset := p.offset + 2 }

/-- `packet.writeInt24(n)` — `writeInt8(n & 0xff); writeInt16(n >> 8)`. -/
def writeInt24 (p : Pkt) (n : Nat) : Pkt :=
  (p.writeInt8 (n % 256)).writeInt16 (n / 256)

/-- Write the `k` low-endian bytes of `v` at position `a` without moving
the cursor (the two `buffer.writeInt32LE` calls of the `0xfe` branch; the
signed `low`/`high` words store the same bytes as their unsigned values). -/
def pokeLE (buf : Nat → Nat) : Nat → Nat → Nat → (Nat → Nat)
  | _, _, 0 => buf
  | a, v, k + 1 => pokeLE (Function.update buf a (v % 256)) (a + 1) (v / 256) k

/-- `Long.fromNumber(n, true)` on a non-negative integral double: exact
below `2^64`, clamped to `2^64 − 1` above. -/
def jsLongFromNumberU (v : Nat) : Nat := if v < 2 ^ 64 then v else 2 ^ 64 - 1

/-- The argument `writeLengthCodedNumber` receives: JS `null`, a
non-negative integral number, or a decimal string.  (An explicit Long-like
object is also accepted by the source; no settled claim passes one.) -/
inductive LcnArg
  | null
  | jsNum (v : Nat)
  | jsStr (s : String)
deriving DecidableEq, Repr

/-- The tail of `writeLengthCodedNumber`: the three narrow forms, reached
directly for a small argument or after the `longValue` collapse; a value
that fits no form throws (`none`). -/
def writeLcnSmall (p : Pkt) (v : Nat) : Option Pkt :=
  if v < 0xfb then some (p.writeInt8 v)
  else if v < 0x10000 then some ((p.writeInt8 0xfc).writeInt16 v)
  else if v < 0x1000000 then some ((p.writeInt8 0xfd).writeInt24 v)
  else none

/-- The `longValue !== null` path of `writeLengthCodedNumber`, `lv` being
the Long's unsigned 64-bit value: a Long whose high word is zero and whose
low word has a clear top byte (`low & 0xff000000 === 0`, i.e. value
< 2^24) collapses back to the narrow forms with `n = longValue.low`;
otherwise `0xfe` and the two 32-bit words are written (8 bytes). -/
def writeLcnLong (p : Pkt) (lv : Nat) : Option Pkt :=
  if lv / 2 ^ 32 = 0 ∧ lv % 2 ^ 32 < 2 ^ 24 then
    -- "Can transmit as UInt24"
    p.writeLcnSmall (lv % 2 ^ 32)
  else
    -- "Write UInt64"
    let p1 := p.writeInt8 0xfe
    some { p1 with
      buf := pokeLE (pokeLE p1.buf p1.offset (lv % 2 ^ 32) 4) (p1.offset + 4) (lv / 2 ^ 32) 4
      offset := p1.offset + 8 }

/-- `packet.writeLengthCodedNumber(n)`.  `null` emits the `0xfb` marker.
A number above `0xffffff` goes through `Long.fromNumber`; a string of
length ≥ 8 through `Long.fromString` (decimal, wrapping at 2^64); both
then take the `longValue` path (`writeLcnLong`).  Everything else falls
through to the narrow forms with `longValue === null` (a short decimal
string is numerically coerced there by the `<` comparisons and by
`writeUInt8`). -/
def writeLengthCodedNumber (p : Pkt) (n : LcnArg) : Option Pkt :=
  match n with
  | .null => some (p.writeInt8 0xfb)
  | .jsNum v =>
    if 0xffffff < v then p.writeLcnLong (jsLongFromNumberU v) else p.writeLcnSmall v
  | .jsStr s =>
    if 8 ≤ s.length then p.writeLcnLong (strToNatDec s % 2 ^ 64)
    else p.writeLcnSmall (strToNatDec s)

end Pkt

/-- `Packet.lengthCodedNumberLength(n)` (static). -/
def lengthCodedNumberLength (n : Nat) : Nat :=
  if n < 0xfb then 1
  else if n < 0x10000 then 3
  else if n < 0x1000000 then 5
  else 9

/-! ### Cast-field adapter and binary row parser -/

/-- Column type identities, as dispatched on by `readCodeFor`.  The numeric
codes live in a constants table outside `src/`; the switch compares
identities only, so an inductive stands in.  `other` is any type taken by
the switch's `default` arm (VARCHAR, VAR_STRING, STRING, BLOB, …); the
GEOMETRY and JSON arms are not modelled (no settled claim exercises
them). -/
inductive ColType
  | TINY | SHORT | LONG | INT24 | YEAR | FLOAT | DOUBLE | NULLT
  | DATE | DATETIME | TIMESTAMP | NEWDATE | TIME
  | DECIMAL | NEWDECIMAL | LONGLONG | other
deriving DecidableEq, Repr

/-- A column definition, as far as the adapter and row parser consume it. -/
structure ColumnDef where
  name : String
  table : String
  encoding : Option String
  columnType : ColType
  flagsUnsigned : Bool
  decimals : Nat

/-- A decoded cell value.  `cbytes` doubles as the raw pass-through value
and as the FLOAT/DOUBLE payload (their IEEE bit decoding is outside the
integer model; no settled claim reads those values). -/
inductive Cell
  | cnull
  | cnum (i : Int)
  | cstr (s : String)
  | cbytes (bs : List Nat)
  | cdate (d : JsDate)
  | ctime (t : PacketParser.TimeVal)
deriving DecidableEq, Repr

/-- View a byte list as a buffer function (a `Buffer` slice starting at
index 0). -/
def listBuf (bs : List Nat) : Nat → Nat := fun i => bs.getD i 0

/-- JavaScript `a || b` on the adapter's encoding values: `null`,
`undefined` and the empty string are falsy. -/
def jsOrStr (a b : Option String) : Option String :=
  match a with
  | some s => if s = "" then b else some s
  | none => b

/-- The `CastField` adapter's state after construction
(src `lib/parsers/cast_field.js`).  `defaultRead` is the thunk the
constructor selects; `dec` abstracts `PacketParser.decode` (the string
parser lives outside `src/`). -/
structure CastField where
  isBinary : Bool
  column : ColumnDef
  fieldBuffer : List Nat
  forceEncoding : Option String
  defaultRead : Unit → Cell

/-- The `CastField` constructor, branch for branch: a `null`/`undefined`
cell buffer is replaced by an empty buffer, the encoding is overwritten
with `null`, and `defaultRead` becomes `PacketParser.alwaysNull`; otherwise
the thunk is the supplied cast, the raw buffer (binary/null/undefined
encoding), or the decoded string. -/
def CastField.make (dec : Option String → List Nat → String) (isBinary : Bool)
    (column : ColumnDef) (encoding : Option String) (defaultCast : Option (List Nat → Cell))
    (fieldBuffer : Option (List Nat)) : CastField :=
  match fieldBuffer with
  | none =>
    { isBinary := isBinary, column := column, fieldBuffer := [], forceEncoding := none,
      defaultRead := fun _ => Cell.cnull }
  | some fb =>
    match defaultCast with
    | some f =>
      { isBinary := isBinary, column := column, fieldBuffer := fb, forceEncoding := encoding,
        defaultRead := fun _ => f fb }
    | none =>
      if encoding = some "binary" ∨ encoding = none then
        { isBinary := isBinary, column := column, fieldBuffer := fb, forceEncoding := encoding,
          defaultRead := fun _ => Cell.cbytes fb }
      else
        { isBinary := isBinary, column := column, fieldBuffer := fb, forceEncoding := encoding,
          defaultRead := fun _ => Cell.cstr (dec encoding fb) }

/-- The `encoding` getter: `this.forceEncoding || this.column.encoding`. -/
def CastField.encoding (cf : CastField) : Option String :=
  jsOrStr cf.forceEncoding cf.column.encoding

/-- `castField.run(typeCast)`. -/
def CastField.run {α : Type} (cf : CastField) (typeCast : CastField → (Unit → Cell) → α) : α :=
  typeCast cf cf.defaultRead

/-- One binary-protocol cell, per `readCodeFor`'s `buffer` expression and
default cast, under the option set the settled claims exercise (no
`typeCast`/`binaryCast`, `supportBigNumbers`/`bigNumberStrings` off,
`dateStrings` off, `decimalNumbers` off).  `none` models a thrown JS
exception (a length-coded cell whose length byte is the NULL marker feeds
`null` to a decoder, or an 8-byte length surfacing as a string).  The
`default` arm always decodes: the generated code's `encoding === '"binary"'`
test compares the emitted *code string* `fields[i].encoding`, which is
never the literal `'"binary"'`. -/
def readBinaryCell (dec : Option String → List Nat → String) (f : ColumnDef) (p : Pkt) :
    Option (Cell × Pkt) :=
  match f.columnType with
  | .TINY =>
    let (b, p1) := p.readBuffer (some 1)
    some ((if f.flagsUnsigned then Cell.cnum (PacketParser.uint8 (listBuf b) 0)
      else Cell.cnum (PacketParser.int8 (listBuf b) 0)), p1)
  | .SHORT =>
    let (b, p1) := p.readBuffer (some 2)
    some ((if f.flagsUnsigned then Cell.cnum (PacketParser.uint16 (listBuf b) 0)
      else Cell.cnum (PacketParser.int16 (listBuf b) 0)), p1)
  | .YEAR =>
    let (b, p1) := p.readBuffer (some 2)
    some (Cell.cnum (PacketParser.uint16 (listBuf b) 0), p1)
  | .LONG | .INT24 =>
    let (b, p1) := p.readBuffer (some 4)
    some ((if f.flagsUnsigned then Cell.cnum (PacketParser.uint32 (listBuf b) 0)
      else Cell.cnum (PacketParser.int32 (listBuf b) 0)), p1)
  | .FLOAT =>
    let (b, p1) := p.readBuffer (some 4)
    some (Cell.cbytes b, p1)
  | .DOUBLE =>
    let (b, p1) := p.readBuffer (some 8)
    some (Cell.cbytes b, p1)
  | .NULLT => some (Cell.cnull, p)
  | .DATE | .DATETIME | .TIMESTAMP | .NEWDATE =>
    match p.readLengthCodedBuffer with
    | some (some b, p1) => some (Cell.cdate (PacketParser.dateTime (listBuf b) 0 b.length), p1)
    | _ => none
  | .TIME =>
    match p.readLengthCodedBuffer with
    | some (some b, p1) => some (Cell.ctime (PacketParser.timeString (listBuf b) 0 b.length), p1)
    | _ => none
  | .DECIMAL | .NEWDECIMAL =>
    match p.readLengthCodedBuffer with
    | some (some b, p1) => some (Cell.cstr (dec (some "ascii") b), p1)
    | _ => none
  | .LONGLONG =>
    let (b, p1) := p.readBuffer (some 8)
    some ((if f.flagsUnsigned then Cell.cnum (PacketParser.uint64Number (listBuf b) 0)
      else Cell.cnum (PacketParser.int64Number (listBuf b) 0)), p1)
  | .other =>
    match p.readLengthCodedBuffer with
    | some (some b, p1) => some (Cell.cstr (dec f.encoding b), p1)
    | _ => none

/-- `Math.floor((fields.length + 7 + 2) / 8)` — the null-bitmap byte count
the compiled parser reads. -/
def nullBitmapLength (n : Nat) : Nat := (n + 7 + 2) / 8

/-- The `k` bitmap bytes, read with `k` successive `readInt8()` calls. -/
def readBitmap (p : Pkt) : Nat → List Nat × Pkt
  | 0 => ([], p)
  | k + 1 =>
    let (b, p1) := p.readInt8
    let (rest, p2) := readBitmap p1 k
    (b :: rest, p2)

/-- The compiled parser's per-column loop.  `bit` and `byteIdx` carry the
generated `currentFieldNullBit` (starting at 4: the first two bits are
reserved) and `nullByteIndex`; the bit doubles each column and wraps to 1
on the next byte at `0x100`.  A set bit yields `null` without reading any
cell bytes. -/
def binRowLoop (dec : Option String → List Nat → String) :
    List ColumnDef → Pkt → List Nat → Nat → Nat → Option (List Cell × Pkt)
  | [], p, _, _, _ => some ([], p)
  | f :: fs, p, bm, bit, byteIdx =>
    let isNull := bm.getD byteIdx 0 &&& bit ≠ 0
    match (if isNull then some (Cell.cnull, p) else readBinaryCell dec f p) with
    | none => none
    | some (v, p1) =>
      let bit2 := bit * 2
      let next : Nat × Nat := if bit2 = 0x100 then (1, byteIdx + 1) else (bit2, byteIdx)
      match binRowLoop dec fs p1 bm next.1 next.2 with
      | none => none
      | some (cells, p2) => some (v :: cells, p2)

/-- The compiled binary row parser (`compile` in the binary parser module),
for the no-`typeCast` option set, with the row as the ordered cell list
(the `rowsAsArray` shape; the lvalue naming variants place the same cells
under names).  One status byte, then `nullBitmapLength` bitmap bytes, then
the per-column loop from `currentFieldNullBit = 4`, `nullByteIndex = 0`. -/
def binRowParse (dec : Option String → List Nat → String) (fields : List ColumnDef) (p : Pkt) :
    Option (List Cell × Pkt) :=
  let (_, p1) := p.readInt8
  let (bm, p2) := readBitmap p1 (nullBitmapLength fields.length)
  binRowLoop dec fields p2 bm 4 0

/-- The buffer of a pure-ASCII string, one byte per character. -/
def strBuf (s : String) : Nat → Nat := listBuf (s.data.map Char.toNat)

/-! ## Theorems -/

/-- **C1.**  For every buffer and offset, the default 64-bit readers
`uint64NumberIfPossible` and `int64NumberIfPossible` do *not* return
normally: the stray `.toString()` applied to the `Long` on their first line
turns it into a string, and the subsequent `.toNumber()` call throws a
`TypeError` before any value can be produced — against the claim (and the
spec's guarantee) that they return the encoded value as a number in
`[−2^53, 2^53]` and as a decimal string outside it. -/
theorem c1_ifPossible_always_throws (buffer : Nat → Nat) (offset : Nat) :
    PacketParser.uint64NumberIfPossible buffer offset =
      Except.error "TypeError: long.toNumber is not a function" ∧
    PacketParser.int64NumberIfPossible buffer offset =
      Except.error "TypeError: long.toNumber is not a function" :=
  ⟨rfl, rfl⟩

/-- **C3.**  At the failing input `n = 65536` (any value in
`[0x10000, 0xffffff]` behaves alike): `Packet.lengthCodedNumberLength`
returns 5, but `writeLengthCodedNumber` emits the `0xfd` form and advances
the offset by exactly 4 bytes (`0xfd` + 3 payload bytes), for every
packet — the static helper over-counts the 3-byte form by one. -/
theorem c3_lengthCodedNumberLength_mismatch :
    lengthCodedNumberLength 65536 = 5 ∧
    ∀ p : Pkt, (p.writeLengthCodedNumber (.jsNum 65536)).map (fun q => q.offset) =
      some (p.offset + 4) := by
  refine ⟨rfl, fun p => ?_⟩
  show (Pkt.writeLcnSmall p 65536).map (fun q => q.offset) = some (p.offset + 4)
  simp only [Pkt.writeLcnSmall, Pkt.writeInt8, Pkt.writeInt16, Pkt.writeInt24]
  norm_num

/-- **C9 (counterexample).**  A `CastField` built over a NULL cell (`none`
buffer) for a column whose resolved encoding is `"utf8"`: the `encoding`
property is `"utf8"`, not the forced null — the constructor does store
`forceEncoding = null`, but the getter's `forceEncoding || column.encoding`
treats the null as falsy and falls back to the column encoding. -/
theorem c9_counterexample :
    (CastField.make (fun _ bs => latin1OfList bs) true
        { name := "c", table := "t", encoding := some "utf8", columnType := .other,
          flagsUnsigned := false, decimals := 0 } (some "utf8") none none).encoding =
      some "utf8" ∧ some "utf8" ≠ (none : Option String) :=
  ⟨rfl, by simp⟩

/-- **C9 (amended).**  For every decoder, protocol flag, column, encoding
and default cast, a `CastField` over a `null`/`undefined` cell buffer has a
`defaultRead` thunk returning `null`, and its `encoding` property equals
the *column's* encoding: the constructor forces `forceEncoding = null`, and
the getter's `||` then always falls back to `column.encoding`. -/
theorem c9_null_cell_defaultRead (dec : Option String → List Nat → String) (isBinary : Bool)
    (column : ColumnDef) (encoding : Option String) (defaultCast : Option (List Nat → Cell)) :
    (CastField.make dec isBinary column encoding defaultCast none).defaultRead () = Cell.cnull ∧
    (CastField.make dec isBinary column encoding defaultCast none).encoding = column.encoding :=
  ⟨rfl, rfl⟩

/-- **C7.**  At the failing input — the 7-byte binary DATETIME payload
`[0xE4, 0x07, 0x01, 0x02, 0x03, 0x04, 0x05]` (year 2020, month 1, day 2,
03:04:05) — `dateTime` builds its `Date` with day 2 read from offset `+3`,
while `dateTimeString` renders `"2020-01-03 03:04:05"`, its day `03` read
from offset `+4` (the hour byte): the two functions do *not* read the day
from the same byte offset, against the claim. -/
theorem c7_day_offset_divergence :
    PacketParser.dateTime (listBuf [0xE4, 0x07, 1, 2, 3, 4, 5]) 0 7 =
      JsDate.date 2020 0 2 3 4 5 0 ∧
    PacketParser.dateTimeString (listBuf [0xE4, 0x07, 1, 2, 3, 4, 5]) 0 7 0 =
      some "2020-01-03 03:04:05" :=
  ⟨by decide, by decide⟩

/-- **C4.**  `intAscii` meets the claim's three boundary examples at offset
0, but *not* at a nonzero offset: on the buffer `"X90071992547409921"` with
offset 1 and length 17 it returns the string `"9007199254740992"` — the
source passes `length` as the *end* argument of
`buffer.toString('ascii', offset, length)`, decoding bytes `[1, 17)` and
silently dropping the final digit — where the claim promises
`"90071992547409921"`. -/
theorem c4_intAscii_offset_bug :
    PacketParser.intAscii (strBuf "9007199254740992") 0 16 = .num 9007199254740992 ∧
    PacketParser.intAscii (strBuf "9007199254740993") 0 16 = .str "9007199254740993" ∧
    PacketParser.intAscii (strBuf "90071992547409921") 0 17 = .str "90071992547409921" ∧
    PacketParser.intAscii (strBuf "X90071992547409921") 1 17 = .str "9007199254740992" ∧
    "9007199254740992" ≠ "90071992547409921" :=
  ⟨by decide, by decide, by decide, by decide, by decide⟩

/-- **C10.**  With `supportBigNumbers` set, no execution of `parseInt` —
and hence none of `parseLengthCodedInt` — exits through the
`numDigits > 16` branch: the preceding `numDigits >= 15` branch has
already returned whenever that guard could hold. -/
theorem c10_gt16_branch_unreachable :
    (∀ (p : Pkt) (len : Option Nat), (p.parseIntT len true).2.2 ≠ Pkt.PISite.bigGt16) ∧
    (∀ (p : Pkt) (r : JsIntRes × Pkt × Pkt.PISite),
      p.parseLengthCodedIntT true = some r → r.2.2 ≠ Pkt.PISite.bigGt16) := by
  have base : ∀ (p : Pkt) (len : Option Nat),
      (p.parseIntT len true).2.2 ≠ Pkt.PISite.bigGt16 := by
    intro p len
    match len with
    | none => simp [Pkt.parseIntT]
    | some l =>
      simp only [Pkt.parseIntT]
      repeat' split
      all_goals simp_all
      all_goals omega
  refine ⟨base, fun p r h => ?_⟩
  unfold Pkt.parseLengthCodedIntT at h
  rcases hr : p.readLengthCodedNumber false false with _ | ⟨v, p1⟩ <;> rw [hr] at h
  · exact absurd h (by simp)
  · cases v with
    | null => simp only [Option.some.injEq] at h; exact h ▸ base p1 none
    | num d => simp only [Option.some.injEq] at h; exact h ▸ base p1 (some d.toNat)
    | str s => simp only [Option.some.injEq] at h; exact h ▸ base p1 (some (strToNatDec s))

/-- **C10 (witness packet).**  A 3-digit length-coded cell `"123"`. -/
def c10pkt : Pkt := Pkt.new 0 (listBuf [3, 0, 0, 0, 0x03, 0x31, 0x32, 0x33]) 8 0 8

/-- **C10 (witness result).**  The parse of `c10pkt` with
`supportBigNumbers`: the number 123 via the checked digit loop. -/
def c10res : JsIntRes × Pkt × Pkt.PISite :=
  (.num 123,
    { seq := 0, buf := listBuf [3, 0, 0, 0, 0x03, 0x31, 0x32, 0x33], blen := 8, start := 0,
      offset := 8, pend := 8 },
    .checkedNum)

/-- **C10 (witness).**  The concrete parse lands in the `checkedNum`
return site, and the theorem applies to it. -/
theorem c10_witness :
    c10pkt.parseLengthCodedIntT true = some c10res ∧ c10res.2.2 ≠ Pkt.PISite.bigGt16 :=
  ⟨rfl, c10_gt16_branch_unreachable.2 c10pkt c10res rfl⟩

/-- **C6 (amended).**  For every packet whose frame payload starts with the
`0xFF` error marker, `asError` produces: `errno` = the little-endian u16 at
payload offsets +1/+2; `sqlMessage` = `message`; `code` = the table lookup
of `errno` (which is *undefined* — `none` — when the errno is unknown to
the table, not the numeric code); and, when the byte at payload offset +3
is the `0x23` marker, `sqlState` = the following five bytes with `message`
decoded from payload offset +9 to the window end — otherwise `sqlState` is
empty and `message` is decoded from payload offset +3 on. -/
theorem c6_asError_structure (p : Pkt) (dec : List Nat → String)
    (hf : p.buf (p.start + 4) = 0xff) :
    (p.asError dec).errno = p.buf (p.start + 4 + 1) + 2 ^ 8 * p.buf (p.start + 4 + 1 + 1) ∧
    (p.asError dec).sqlMessage = (p.asError dec).message ∧
    (p.asError dec).code = ErrorCodeToName ((p.asError dec).errno) ∧
    (if p.buf (p.start + 4 + 1 + 2) = 0x23 then
        (p.asError dec).sqlState = latin1OfList (Pkt.bytesAt p.buf (p.start + 4 + 1 + 2 + 1) 5) ∧
        (p.asError dec).message =
          dec (Pkt.bytesAt p.buf (p.start + 4 + 1 + 2 + 1 + 5)
            (p.pend - (p.start + 4 + 1 + 2 + 1 + 5)))
      else
        (p.asError dec).sqlState = "" ∧
        (p.asError dec).message =
          dec (Pkt.bytesAt p.buf (p.start + 4 + 1 + 2) (p.pend - (p.start + 4 + 1 + 2)))) := by
  by_cases hc : p.buf (p.start + 4 + 1 + 2) = 0x23 <;>
    simp only [Pkt.asError, Pkt.reset, Pkt.readInt8, Pkt.readInt16, Pkt.skip, Pkt.readBuffer,
      Pkt.readString, PacketParser.uint16, hc, if_pos, if_neg, if_true, if_false,
      ite_true, ite_false, not_false_iff] <;>
    simp [hc]

/-- **C6 (counterexample).**  An error frame with errno 9999 — absent from
the error table: `asError` leaves `code` as JS `undefined` (`none`), not
the numeric code the claim promises. -/
theorem c6_counterexample :
    ((Pkt.new 0 (listBuf [4, 0, 0, 0, 0xFF, 0x0F, 0x27, 0x42]) 8 0 8).asError
        latin1OfList).errno = 9999 ∧
    ((Pkt.new 0 (listBuf [4, 0, 0, 0, 0xFF, 0x0F, 0x27, 0x42]) 8 0 8).asError
        latin1OfList).code = none ∧
    (none : Option String) ≠ some "9999" :=
  ⟨by decide, by decide, by simp⟩

/-- **C6 (witness packet).**  The spec's S7 error frame: errno 1096,
SQL-state marker, state `"28000"`, message `"Bad"`. -/
def s7pkt : Pkt :=
  Pkt.new 0
    (listBuf [12, 0, 0, 0, 0xFF, 0x48, 0x04, 0x23, 0x32, 0x38, 0x30, 0x30, 0x30, 0x42, 0x61, 0x64])
    16 0 16

/-- **C6 (witness).**  The structure theorem applies to the S7 frame, whose
decoded error is `{errno: 1096, code: "ER_NO_TABLES_USED",
sqlState: "28000", message: "Bad"}`. -/
theorem c6_witness :
    s7pkt.buf (s7pkt.start + 4) = 0xff ∧
    (s7pkt.asError latin1OfList).errno =
      s7pkt.buf (s7pkt.start + 4 + 1) + 2 ^ 8 * s7pkt.buf (s7pkt.start + 4 + 1 + 1) ∧
    (s7pkt.asError latin1OfList).errno = 1096 ∧
    (s7pkt.asError latin1OfList).code = some "ER_NO_TABLES_USED" ∧
    (s7pkt.asError latin1OfList).sqlState = "28000" ∧
    (s7pkt.asError latin1OfList).message = "Bad" :=
  ⟨rfl, (c6_asError_structure s7pkt latin1OfList rfl).1, by decide, by decide, by decide,
    by decide⟩

/-! #### C5 — the binary row parser's null bitmap -/

/-- `readBitmap` moves the cursor forward by exactly the byte count. -/
theorem readBitmap_snd : ∀ (k : Nat) (p : Pkt),
    (readBitmap p k).2 = { p with offset := p.offset + k } := by
  intro k
  induction k with
  | zero => intro p; rfl
  | succ n ih =>
    intro p
    simp only [readBitmap, Pkt.readInt8, ih]
    congr 1
    omega

/-- One step of `bytesAt`. -/
theorem bytesAt_succ (buf : Nat → Nat) (o n : Nat) :
    Pkt.bytesAt buf o (n + 1) = buf o :: Pkt.bytesAt buf (o + 1) n := by
  simp only [Pkt.bytesAt, List.range_succ_eq_map, List.map_cons, List.map_map, Nat.add_zero,
    List.cons.injEq]
  refine ⟨trivial, ?_⟩
  have hfn : ((fun i => buf (o + i)) ∘ Nat.succ) = fun i => buf (o + 1 + i) :=
    funext fun i => congrArg buf (by omega)
  rw [hfn]

/-- `readBitmap` returns exactly the bytes at the cursor. -/
theorem readBitmap_fst : ∀ (k : Nat) (p : Pkt),
    (readBitmap p k).1 = Pkt.bytesAt p.buf p.offset k := by
  intro k
  induction k with
  | zero => intro p; rfl
  | succ n ih =>
    intro p
    simp only [readBitmap, Pkt.readInt8, ih, bytesAt_succ]

/-- A decoded non-NULL-typed cell is never the `null` value: every arm of
the dispatch builds a number, string, byte, date or time cell. -/
theorem readBinaryCell_ne_null (dec : Option String → List Nat → String) (f : ColumnDef)
    (p p' : Pkt) (c : Cell) (ht : f.columnType ≠ ColType.NULLT)
    (h : readBinaryCell dec f p = some (c, p')) : c ≠ Cell.cnull := by
  rcases f with ⟨nm, tb, enc, ct, un, dc⟩
  cases ct <;> simp only [readBinaryCell] at h <;>
    first
    | exact absurd rfl ht
    | (split at h <;> (obtain ⟨rfl, rfl⟩ := Prod.mk.injEq .. ▸ Option.some.injEq .. ▸ h
        <;> simp))
    | (rcases hb : p.readLengthCodedBuffer with _ | ⟨_ | b, p1⟩ <;> rw [hb] at h <;>
        simp only [Option.some.injEq, Prod.mk.injEq, reduceCtorEq] at h <;>
        obtain ⟨rfl, rfl⟩ := h <;> simp)
    | (obtain ⟨rfl, rfl⟩ := Prod.mk.injEq .. ▸ Option.some.injEq .. ▸ h <;> simp)

/-- The generated parser's bit walk: doubling `currentFieldNullBit` from
`2^((j+2) % 8)` and wrapping to 1 with the next byte at `0x100` lands
exactly on `2^((j+3) % 8)` in byte `(j+3)/8`. -/
theorem nextBit_eq (j : Nat) :
    (if 2 ^ ((j + 2) % 8) * 2 = 0x100 then ((1 : Nat), (j + 2) / 8 + 1)
      else (2 ^ ((j + 2) % 8) * 2, (j + 2) / 8)) =
    (2 ^ ((j + 3) % 8), (j + 3) / 8) := by
  rcases Nat.lt_or_ge ((j + 2) % 8) 7 with hlt | hge
  · have h1 : (j + 3) % 8 = (j + 2) % 8 + 1 := by omega
    have h2 : (j + 3) / 8 = (j + 2) / 8 := by omega
    have hb : 2 ^ ((j + 2) % 8) ≤ 2 ^ 6 := Nat.pow_le_pow_right (by norm_num) (by omega)
    rw [if_neg (by omega), h1, h2, pow_succ]
  · have hr7 : (j + 2) % 8 = 7 := by omega
    have h1 : (j + 3) % 8 = 0 := by omega
    have h2 : (j + 3) / 8 = (j + 2) / 8 + 1 := by omega
    rw [hr7, h1, h2]
    norm_num

/-- The per-column loop, started at column `j`'s bit position, produces one
cell per remaining column, and (absent NULL-typed columns) the `k`-th of
them is the `null` value exactly when bit `j + k + 2` of the bitmap is set
(bit `b` of a byte list meaning bit `b % 8` of byte `b / 8`). -/
theorem binRowLoop_spec (dec : Option String → List Nat → String) :
    ∀ (fs : List ColumnDef) (p : Pkt) (bm : List Nat) (j : Nat)
      (hts : ∀ f ∈ fs, f.columnType ≠ ColType.NULLT) (cells : List Cell) (p' : Pkt),
      binRowLoop dec fs p bm (2 ^ ((j + 2) % 8)) ((j + 2) / 8) = some (cells, p') →
      cells.length = fs.length ∧
      ∀ k, k < fs.length →
        (cells.getD k Cell.cnull = Cell.cnull ↔
          bm.getD ((j + k + 2) / 8) 0 &&& 2 ^ ((j + k + 2) % 8) ≠ 0) := by
  intro fs
  induction fs with
  | nil =>
    intro p bm j hts cells p' h
    simp only [binRowLoop, Option.some.injEq, Prod.mk.injEq] at h
    obtain ⟨rfl, rfl⟩ := h
    exact ⟨rfl, fun k hk => absurd hk (by simp)⟩
  | cons f fs ih =>
    intro p bm j hts cells p' h
    simp only [binRowLoop, nextBit_eq j] at h
    have hts' : ∀ g ∈ fs, g.columnType ≠ ColType.NULLT := fun g hg => hts g (by simp [hg])
    by_cases hnull : bm.getD ((j + 2) / 8) 0 &&& 2 ^ ((j + 2) % 8) ≠ 0
    · simp only [if_pos hnull] at h
      rcases hrec : binRowLoop dec fs p bm (2 ^ ((j + 1 + 2) % 8)) ((j + 1 + 2) / 8)
        with _ | ⟨cells1, p1⟩
      · rw [show j + 1 + 2 = j + 3 from by omega] at hrec
        rw [hrec] at h
        exact absurd h (by simp)
      · rw [show j + 1 + 2 = j + 3 from by omega] at hrec
        rw [hrec] at h
        simp only [Option.some.injEq, Prod.mk.injEq] at h
        obtain ⟨rfl, rfl⟩ := h
        obtain ⟨hlen, hbits⟩ := ih p bm (j + 1) hts' cells1 p1 hrec
        refine ⟨by simp [hlen], fun k hk => ?_⟩
        match k with
        | 0 => simpa using hnull
        | Nat.succ k' =>
          have hk' : k' < fs.length := by simpa using hk
          have := hbits k' hk'
          rw [show j + 1 + k' + 2 = j + (k' + 1) + 2 from by omega] at this
          simpa using this
    · rw [if_neg hnull] at h
      rcases hcell : readBinaryCell dec f p with _ | ⟨c, pc⟩ <;> simp only [hcell] at h
      · exact absurd h (by simp)
      · rcases hrec : binRowLoop dec fs pc bm (2 ^ ((j + 1 + 2) % 8)) ((j + 1 + 2) / 8)
          with _ | ⟨cells1, p1⟩
        · rw [show j + 1 + 2 = j + 3 from by omega] at hrec
          rw [hrec] at h
          exact absurd h (by simp)
        · rw [show j + 1 + 2 = j + 3 from by omega] at hrec
          rw [hrec] at h
          simp only [Option.some.injEq, Prod.mk.injEq] at h
          obtain ⟨rfl, rfl⟩ := h
          obtain ⟨hlen, hbits⟩ := ih pc bm (j + 1) hts' cells1 p1 hrec
          have hcne : c ≠ Cell.cnull :=
            readBinaryCell_ne_null dec f p pc c (hts f (by simp)) hcell
          refine ⟨by simp [hlen], fun k hk => ?_⟩
          match k with
          | 0 => simp only [List.getD_cons_zero]; exact ⟨fun hcc => absurd hcc hcne,
              fun hb => absurd hb hnull⟩
          | Nat.succ k' =>
            have hk' : k' < fs.length := by simpa using hk
            have := hbits k' hk'
            rw [show j + 1 + k' + 2 = j + (k' + 1) + 2 from by omega] at this
            simpa using this

/-- **C5 (amended).**  For every column list without NULL-typed columns and
every packet, the compiled binary-row parser consumes one status byte and
then exactly `⌊(n + 9) / 8⌋` null-bitmap bytes before any cell (the
bitmap being exactly the bytes following the status byte), and assigns
`null` to column `k` exactly when bit `(k + 2) % 8` of bitmap byte
`(k + 2) / 8` is set — column 0's null bit is bit 2 of byte 0, successive
columns use successive bits continuing into the following bytes. -/
theorem c5_binary_row_null_bitmap (dec : Option String → List Nat → String)
    (fields : List ColumnDef) (p : Pkt)
    (hts : ∀ f ∈ fields, f.columnType ≠ ColType.NULLT) :
    nullBitmapLength fields.length = (fields.length + 9) / 8 ∧
    binRowParse dec fields p =
      binRowLoop dec fields { p with offset := p.offset + 1 + (fields.length + 9) / 8 }
        (Pkt.bytesAt p.buf (p.offset + 1) ((fields.length + 9) / 8)) 4 0 ∧
    ∀ cells p', binRowParse dec fields p = some (cells, p') →
      cells.length = fields.length ∧
      ∀ k, k < fields.length →
        (cells.getD k Cell.cnull = Cell.cnull ↔
          (Pkt.bytesAt p.buf (p.offset + 1) ((fields.length + 9) / 8)).getD ((k + 2) / 8) 0 &&&
            2 ^ ((k + 2) % 8) ≠ 0) := by
  have hshape : binRowParse dec fields p =
      binRowLoop dec fields { p with offset := p.offset + 1 + (fields.length + 9) / 8 }
        (Pkt.bytesAt p.buf (p.offset + 1) ((fields.length + 9) / 8)) 4 0 := by
    show (let (_, p1) := p.readInt8
          let (bm, p2) := readBitmap p1 (nullBitmapLength fields.length)
          binRowLoop dec fields p2 bm 4 0) = _
    simp only [Pkt.readInt8, readBitmap_snd, readBitmap_fst, nullBitmapLength]
  refine ⟨rfl, hshape, fun cells p' h => ?_⟩
  rw [hshape] at h
  have := binRowLoop_spec dec fields
    { p with offset := p.offset + 1 + (fields.length + 9) / 8 }
    (Pkt.bytesAt p.buf (p.offset + 1) ((fields.length + 9) / 8)) 0 hts cells p' h
  refine ⟨this.1, fun k hk => ?_⟩
  have hb := this.2 k hk
  rw [show 0 + k + 2 = k + 2 from by omega] at hb
  exact hb

/-- The spec's S8 TINY-unsigned column. -/
def tinyDef : ColumnDef :=
  { name := "col0", table := "t", encoding := some "binary", columnType := .TINY,
    flagsUnsigned := true, decimals := 0 }

/-- The spec's S8 VARCHAR column (the dispatch's default arm). -/
def varDef : ColumnDef :=
  { name := "col1", table := "t", encoding := some "utf8", columnType := .other,
    flagsUnsigned := false, decimals := 0 }

/-- The spec's S8 binary row packet: status byte `0x00`, null bitmap
`[0x08]`, TINY payload `0x2A`, after a 4-byte frame header. -/
def s8pkt : Pkt := Pkt.new 0 (listBuf [3, 0, 0, 0, 0x00, 0x08, 0x2A]) 7 0 7

/-- **C5 (counterexample).**  For `n = 2` columns the parser consumes
`⌊(2+9)/8⌋ = 1` bitmap byte, not the claim's `⌈(2+9)/8⌉ = 2`: parsing the
S8 packet yields `{col0: 42, col1: null}` with the final offset at
`4 + 1 (status) + 1 (bitmap) + 1 (TINY cell) = 7` — had two bitmap bytes
been consumed, the TINY cell would have been read past the window at
offset 8. -/
theorem c5_counterexample :
    (binRowParse (fun _ bs => latin1OfList bs) [tinyDef, varDef] s8pkt).map
        (fun r => (r.1, r.2.offset)) = some ([Cell.cnum 42, Cell.cnull], 7) ∧
    nullBitmapLength 2 = 1 ∧ (2 + 9 + 7) / 8 = 2 ∧ (1 : Nat) ≠ 2 ∧
    4 + 1 + nullBitmapLength 2 + 1 = 7 ∧ 4 + 1 + (2 + 9 + 7) / 8 + 1 = 8 :=
  ⟨rfl, rfl, rfl, by decide, rfl, rfl⟩

/-- **C5 (witness).**  The amended theorem applied to the S8 packet: the
parse produces two cells, the first non-null (42) and the second null,
matching bitmap `0x08` — bit 2 (column 0) clear, bit 3 (column 1) set. -/
theorem c5_witness :
    (∀ f ∈ [tinyDef, varDef], f.columnType ≠ ColType.NULLT) ∧
    nullBitmapLength ([tinyDef, varDef] : List ColumnDef).length =
      (([tinyDef, varDef] : List ColumnDef).length + 9) / 8 := by
  have h := c5_binary_row_null_bitmap (fun _ bs => latin1OfList bs) [tinyDef, varDef] s8pkt
    (by intro f hf; fin_cases hf <;> simp [tinyDef, varDef])
  exact ⟨by intro f hf; fin_cases hf <;> simp [tinyDef, varDef], h.1⟩

/-! #### C8 — the cursor invariant -/

/-- A universal value for the read operations' results. -/
inductive RVal
  | vnat (n : Nat)
  | vint (i : Int)
  | vstr (s : String)
  | vostr (o : Option String)
  | vbytes (bs : List Nat)
  | vobytes (o : Option (List Nat))
  | vlcn (v : Pkt.LcnVal)
  | vdate (d : Option JsDate)
  | vtime (t : PacketParser.TimeVal)
  | vunit

/-- The `Packet` read operations (the readers of the packet class; the
always-throwing `readInt64`/`readSInt64` are omitted — by C1 no sequence
containing them completes).  `dec` arguments abstract the string
decoder of the requested encoding. -/
inductive ReadOp
  | rInt8 | rInt16 | rInt24 | rInt32
  | rSInt8 | rSInt16 | rSInt32
  | rInt64JSNumber | rSInt64JSNumber | rInt64String | rSInt64String
  | rFloat | rDouble
  | rSkip (num : Nat)
  | rBuffer (len : Option Nat)
  | rString (len : Option Nat) (dec : List Nat → String)
  | rLCN (bigNumberStrings signed : Bool)
  | rLCString (dec : List Nat → String)
  | rLCBuffer
  | rNulString (dec : List Nat → String)
  | rDateTime
  | rDateTimeString (decimals : Nat)
  | rTimeString (asMs : Bool)

/-- Run one read operation; `none` models a thrown JS error (invalid
length-coded tag, or a length surfacing as a string). -/
def runOp : ReadOp → Pkt → Option (RVal × Pkt)
  | .rInt8, p => some ((fun (v, q) => (.vnat v, q)) p.readInt8)
  | .rInt16, p => some ((fun (v, q) => (.vnat v, q)) p.readInt16)
  | .rInt24, p => some ((fun (v, q) => (.vnat v, q)) p.readInt24)
  | .rInt32, p => some ((fun (v, q) => (.vnat v, q)) p.readInt32)
  | .rSInt8, p => some ((fun (v, q) => (.vint v, q)) p.readSInt8)
  | .rSInt16, p => some ((fun (v, q) => (.vint v, q)) p.readSInt16)
  | .rSInt32, p => some ((fun (v, q) => (.vint v, q)) p.readSInt32)
  | .rInt64JSNumber, p => some ((fun (v, q) => (.vint v, q)) p.readInt64JSNumber)
  | .rSInt64JSNumber, p => some ((fun (v, q) => (.vint v, q)) p.readSInt64JSNumber)
  | .rInt64String, p => some ((fun (v, q) => (.vstr v, q)) p.readInt64String)
  | .rSInt64String, p => some ((fun (v, q) => (.vstr v, q)) p.readSInt64String)
  | .rFloat, p => some ((fun (v, q) => (.vbytes v, q)) p.readFloat)
  | .rDouble, p => some ((fun (v, q) => (.vbytes v, q)) p.readDouble)
  | .rSkip num, p => some (.vunit, p.skip num)
  | .rBuffer len, p => some ((fun (v, q) => (.vbytes v, q)) (p.readBuffer len))
  | .rString len dec, p => some ((fun (v, q) => (.vstr v, q)) (p.readString len dec))
  | .rLCN bns sg, p => (p.readLengthCodedNumber bns sg).map (fun (v, q) => (.vlcn v, q))
  | .rLCString dec, p => (p.readLengthCodedString dec).map (fun (v, q) => (.vostr v, q))
  | .rLCBuffer, p => p.readLengthCodedBuffer.map (fun (v, q) => (.vobytes v, q))
  | .rNulString dec, p => some ((fun (v, q) => (.vstr v, q)) (p.readNullTerminatedString dec))
  | .rDateTime, p => some ((fun (v, q) => (.vdate v, q)) p.readDateTime)
  | .rDateTimeString d, p => some ((fun (v, q) => (.vostr v, q)) (p.readDateTimeString d))
  | .rTimeString b, p => some ((fun (v, q) => (.vtime v, q)) (p.readTimeString b))

/-- The wire-format byte count an operation consumes on `p`, computed from
the format alone (fixed widths; the length-coded forms' tag and length
bytes; prefix-length payloads; the scan distance plus terminator). -/
def opWidth : ReadOp → Pkt → Option Nat
  | .rInt8, _ => some 1
  | .rInt16, _ => some 2
  | .rInt24, _ => some 3
  | .rInt32, _ => some 4
  | .rSInt8, _ => some 1
  | .rSInt16, _ => some 2
  | .rSInt32, _ => some 4
  | .rInt64JSNumber, _ => some 8
  | .rSInt64JSNumber, _ => some 8
  | .rInt64String, _ => some 8
  | .rSInt64String, _ => some 8
  | .rFloat, _ => some 4
  | .rDouble, _ => some 8
  | .rSkip num, _ => some num
  | .rBuffer len, p => some (len.getD (p.pend - p.offset))
  | .rString len _, p => some (len.getD (p.pend - p.offset))
  | .rLCN _ _, p =>
    let t := p.buf p.offset
    if t < 251 then some 1
    else if t = 0xfb then some 1
    else if t = 0xfc then some 3
    else if t = 0xfd then some 4
    else if t = 0xfe then some 9
    else none
  | .rLCString _, p | .rLCBuffer, p =>
    let t := p.buf p.offset
    if t < 251 then some (1 + t)
    else if t = 0xfb then some 1
    else if t = 0xfc then some (3 + PacketParser.uint16 p.buf (p.offset + 1))
    else if t = 0xfd then
      some (4 + (p.buf (p.offset + 1) + p.buf (p.offset + 1 + 1) * 2 ^ 8 +
        p.buf (p.offset + 1 + 1 + 1) * 2 ^ 16))
    else if t = 0xfe then
      let word0 := PacketParser.uint32 p.buf (p.offset + 1)
      let word1 := PacketParser.uint32 p.buf (p.offset + 1 + 4)
      if word1 = 0 then some (9 + word0)
      else if word1 < 2097152 then some (9 + (word1 * 2 ^ 32 + word0))
      else
        -- a pathological 8-byte length ≥ 2^53 (impossible in a real frame):
        -- when its shortest decimal round-trips it surfaces as a number and
        -- the reader consumes that many bytes; otherwise it surfaces as a
        -- string and the read fails
        let v : Int := ((word0 + 2 ^ 32 * word1 : Nat) : Int)
        if jsIntStr (nearestDoubleI v) = intDecStr v then some (9 + (nearestDoubleI v).toNat)
        else none
    else none
  | .rNulString _, p => some (Pkt.nulScanAux p.buf p.blen (p.blen + 1) p.offset - p.offset + 1)
  | .rDateTime, p => some (1 + (if p.buf p.offset = 0xfb then 0 else p.buf p.offset))
  | .rDateTimeString _, p => some (1 + p.buf p.offset)
  | .rTimeString _, p => some (1 + p.buf p.offset)

/-- The null-terminator scan never moves backwards. -/
theorem nulScanAux_ge (buf : Nat → Nat) (blen : Nat) :
    ∀ (fuel i : Nat), i ≤ Pkt.nulScanAux buf blen fuel i := by
  intro fuel
  induction fuel with
  | zero => intro i; simp [Pkt.nulScanAux]
  | succ n ih =>
    intro i
    simp only [Pkt.nulScanAux]
    split
    · exact le_trans (by omega) (ih (i + 1))
    · exact le_refl i

/-- A successfully run sequence of read operations: each step returns
normally and lands with the cursor no further than the window's end
("reading only data that lies before end"). -/
inductive RunSeqOK : Pkt → List ReadOp → Pkt → Prop
  | nil (p : Pkt) : RunSeqOK p [] p
  | cons {p p1 q : Pkt} {v : RVal} {op : ReadOp} {ops : List ReadOp}
      (hstep : runOp op p = some (v, p1)) (hend : p1.offset ≤ p1.pend)
      (hrest : RunSeqOK p1 ops q) : RunSeqOK p (op :: ops) q

/-- `readLengthCodedNumber` advances by the tag-determined form width. -/
theorem readLCN_spec (p : Pkt) (bns sg : Bool) (lv : Pkt.LcnVal) (q : Pkt)
    (h : p.readLengthCodedNumber bns sg = some (lv, q)) :
    q.buf = p.buf ∧ q.start = p.start ∧ q.pend = p.pend ∧ q.blen = p.blen ∧
    ∃ w, opWidth (.rLCN bns sg) p = some w ∧ q.offset = p.offset + w := by
  have hwdef : opWidth (.rLCN bns sg) p =
      (if p.buf p.offset < 251 then some 1
        else if p.buf p.offset = 0xfb then some 1
        else if p.buf p.offset = 0xfc then some 3
        else if p.buf p.offset = 0xfd then some 4
        else if p.buf p.offset = 0xfe then some 9 else none) := rfl
  simp only [Pkt.readLengthCodedNumber, Pkt.readInt8] at h
  by_cases c1 : p.buf p.offset < 251
  · rw [if_pos c1] at h
    simp only [Option.some.injEq, Prod.mk.injEq] at h
    obtain ⟨rfl, rfl⟩ := h
    exact ⟨rfl, rfl, rfl, rfl, 1, by rw [hwdef, if_pos c1], rfl⟩
  · rw [if_neg c1] at h
    simp only [Pkt.readLengthCodedNumberExt, Pkt.readInt8, Pkt.readInt32] at h
    by_cases c2 : p.buf p.offset = 0xfb
    · rw [if_pos c2] at h
      simp only [Option.some.injEq, Prod.mk.injEq] at h
      obtain ⟨rfl, rfl⟩ := h
      exact ⟨rfl, rfl, rfl, rfl, 1, by rw [hwdef, if_neg c1, if_pos c2], rfl⟩
    · rw [if_neg c2] at h
      by_cases c3 : p.buf p.offset = 0xfc
      · rw [if_pos c3] at h
        simp only [Option.some.injEq, Prod.mk.injEq] at h
        obtain ⟨rfl, rfl⟩ := h
        exact ⟨rfl, rfl, rfl, rfl, 3,
          by rw [hwdef, if_neg c1, if_neg c2, if_pos c3], by simp <;> omega⟩
      · rw [if_neg c3] at h
        by_cases c4 : p.buf p.offset = 0xfd
        · rw [if_pos c4] at h
          simp only [Option.some.injEq, Prod.mk.injEq] at h
          obtain ⟨rfl, rfl⟩ := h
          exact ⟨rfl, rfl, rfl, rfl, 4,
            by rw [hwdef, if_neg c1, if_neg c2, if_neg c3, if_pos c4], by simp <;> omega⟩
        · rw [if_neg c4] at h
          by_cases c5 : p.buf p.offset = 0xfe
          · rw [if_pos c5] at h
            have hw : opWidth (.rLCN bns sg) p = some 9 := by
              rw [hwdef, if_neg c1, if_neg c2, if_neg c3, if_neg c4, if_pos c5]
            repeat' split at h
            all_goals simp only [Option.some.injEq, Prod.mk.injEq] at h
            all_goals obtain ⟨rfl, rfl⟩ := h
            all_goals exact ⟨rfl, rfl, rfl, rfl, 9, hw, by simp <;> omega⟩
          · rw [if_neg c5] at h
            exact absurd h (by simp)

/-- `readLengthCodedString` advances by the length-coded form width plus
the announced string length. -/
theorem readLCString_spec (p : Pkt) (dec : List Nat → String) (os : Option String) (q : Pkt)
    (h : p.readLengthCodedString dec = some (os, q)) :
    q.buf = p.buf ∧ q.start = p.start ∧ q.pend = p.pend ∧ q.blen = p.blen ∧
    ∃ w, opWidth (.rLCString dec) p = some w ∧ q.offset = p.offset + w := by
  simp only [Pkt.readLengthCodedString, Pkt.readLengthCodedNumber, Pkt.readInt8] at h
  by_cases c1 : p.buf p.offset < 251
  · rw [if_pos c1] at h
    simp only [Option.some.injEq, Prod.mk.injEq, Int.toNat_ofNat] at h
    obtain ⟨rfl, rfl⟩ := h
    refine ⟨rfl, rfl, rfl, rfl, 1 + p.buf p.offset, ?_, by simp <;> omega⟩
    simp only [opWidth]
    rw [if_pos c1]
  · rw [if_neg c1] at h
    simp only [Pkt.readLengthCodedNumberExt, Pkt.readInt8, Pkt.readInt32, Bool.false_eq_true,
      ite_false] at h
    by_cases c2 : p.buf p.offset = 0xfb
    · rw [if_pos c2] at h
      simp only [Option.some.injEq, Prod.mk.injEq] at h
      obtain ⟨rfl, rfl⟩ := h
      refine ⟨rfl, rfl, rfl, rfl, 1, ?_, rfl⟩
      simp only [opWidth]
      rw [if_neg c1, if_pos c2]
    · rw [if_neg c2] at h
      by_cases c3 : p.buf p.offset = 0xfc
      · rw [if_pos c3] at h
        simp only [Option.some.injEq, Prod.mk.injEq, Int.toNat_ofNat] at h
        obtain ⟨rfl, rfl⟩ := h
        refine ⟨rfl, rfl, rfl, rfl, 3 + PacketParser.uint16 p.buf (p.offset + 1), ?_,
          by simp [PacketParser.uint16] <;> omega⟩
        simp only [opWidth]
        rw [if_neg c1, if_neg c2, if_pos c3]
      · rw [if_neg c3] at h
        by_cases c4 : p.buf p.offset = 0xfd
        · rw [if_pos c4] at h
          simp only [Option.some.injEq, Prod.mk.injEq, Int.toNat_ofNat] at h
          obtain ⟨rfl, rfl⟩ := h
          refine ⟨rfl, rfl, rfl, rfl,
            4 + (p.buf (p.offset + 1) + p.buf (p.offset + 1 + 1) * 2 ^ 8 +
              p.buf (p.offset + 1 + 1 + 1) * 2 ^ 16), ?_, by simp <;> omega⟩
          simp only [opWidth]
          rw [if_neg c1, if_neg c2, if_neg c3, if_pos c4]
        · rw [if_neg c4] at h
          by_cases c5 : p.buf p.offset = 0xfe
          · rw [if_pos c5] at h
            by_cases c6 : PacketParser.uint32 p.buf (p.offset + 1 + 4) = 0
            · rw [if_pos c6] at h
              simp only [Option.some.injEq, Prod.mk.injEq, Int.toNat_ofNat] at h
              obtain ⟨rfl, rfl⟩ := h
              refine ⟨rfl, rfl, rfl, rfl, 9 + PacketParser.uint32 p.buf (p.offset + 1), ?_,
                by simp <;> omega⟩
              simp only [opWidth]
              rw [if_neg c1, if_neg c2, if_neg c3, if_neg c4, if_pos c5, if_pos c6]
            · rw [if_neg c6] at h
              by_cases c7 : PacketParser.uint32 p.buf (p.offset + 1 + 4) < 2097152
              · rw [if_pos c7] at h
                simp only [Option.some.injEq, Prod.mk.injEq, Int.toNat_ofNat] at h
                obtain ⟨rfl, rfl⟩ := h
                refine ⟨rfl, rfl, rfl, rfl,
                  9 + (PacketParser.uint32 p.buf (p.offset + 1 + 4) * 2 ^ 32 +
                    PacketParser.uint32 p.buf (p.offset + 1)), ?_, by simp <;> omega⟩
                simp only [opWidth]
                rw [if_neg c1, if_neg c2, if_neg c3, if_neg c4, if_pos c5, if_neg c6, if_pos c7]
              · rw [if_neg c7] at h
                by_cases c8 : jsIntStr (nearestDoubleI
                      ((PacketParser.uint32 p.buf (p.offset + 1) +
                        2 ^ 32 * PacketParser.uint32 p.buf (p.offset + 1 + 4) : Nat) : Int)) =
                    intDecStr ((PacketParser.uint32 p.buf (p.offset + 1) +
                      2 ^ 32 * PacketParser.uint32 p.buf (p.offset + 1 + 4) : Nat) : Int)
                · rw [if_pos c8] at h
                  simp only [Option.some.injEq, Prod.mk.injEq] at h
                  obtain ⟨rfl, rfl⟩ := h
                  refine ⟨rfl, rfl, rfl, rfl,
                    9 + (nearestDoubleI ((PacketParser.uint32 p.buf (p.offset + 1) +
                      2 ^ 32 * PacketParser.uint32 p.buf (p.offset + 1 + 4) : Nat) : Int)).toNat,
                    ?_, by simp <;> omega⟩
                  simp only [opWidth]
                  rw [if_neg c1, if_neg c2, if_neg c3, if_neg c4, if_pos c5, if_neg c6,
                    if_neg c7, if_pos c8]
                · rw [if_neg c8] at h
                  exact absurd h (by simp)
          · rw [if_neg c5] at h
            exact absurd h (by simp)

/-- `readLengthCodedBuffer` advances by the length-coded form width plus
the announced buffer length. -/
theorem readLCBuffer_spec (p : Pkt) (ob : Option (List Nat)) (q : Pkt)
    (h : p.readLengthCodedBuffer = some (ob, q)) :
    q.buf = p.buf ∧ q.start = p.start ∧ q.pend = p.pend ∧ q.blen = p.blen ∧
    ∃ w, opWidth .rLCBuffer p = some w ∧ q.offset = p.offset + w := by
  simp only [Pkt.readLengthCodedBuffer, Pkt.readLengthCodedNumber, Pkt.readInt8,
    Pkt.readBuffer, Option.getD_some] at h
  by_cases c1 : p.buf p.offset < 251
  · rw [if_pos c1] at h
    simp only [Option.some.injEq, Prod.mk.injEq, Int.toNat_ofNat] at h
    obtain ⟨rfl, rfl⟩ := h
    refine ⟨rfl, rfl, rfl, rfl, 1 + p.buf p.offset, ?_, by simp <;> omega⟩
    simp only [opWidth]
    rw [if_pos c1]
  · rw [if_neg c1] at h
    simp only [Pkt.readLengthCodedNumberExt, Pkt.readInt8, Pkt.readInt32, Bool.false_eq_true,
      ite_false] at h
    by_cases c2 : p.buf p.offset = 0xfb
    · rw [if_pos c2] at h
      simp only [Option.some.injEq, Prod.mk.injEq] at h
      obtain ⟨rfl, rfl⟩ := h
      refine ⟨rfl, rfl, rfl, rfl, 1, ?_, rfl⟩
      simp only [opWidth]
      rw [if_neg c1, if_pos c2]
    · rw [if_neg c2] at h
      by_cases c3 : p.buf p.offset = 0xfc
      · rw [if_pos c3] at h
        simp only [Option.some.injEq, Prod.mk.injEq, Int.toNat_ofNat] at h
        obtain ⟨rfl, rfl⟩ := h
        refine ⟨rfl, rfl, rfl, rfl, 3 + PacketParser.uint16 p.buf (p.offset + 1), ?_,
          by simp [PacketParser.uint16] <;> omega⟩
        simp only [opWidth]
        rw [if_neg c1, if_neg c2, if_pos c3]
      · rw [if_neg c3] at h
        by_cases c4 : p.buf p.offset = 0xfd
        · rw [if_pos c4] at h
          simp only [Option.some.injEq, Prod.mk.injEq, Int.toNat_ofNat] at h
          obtain ⟨rfl, rfl⟩ := h
          refine ⟨rfl, rfl, rfl, rfl,
            4 + (p.buf (p.offset + 1) + p.buf (p.offset + 1 + 1) * 2 ^ 8 +
              p.buf (p.offset + 1 + 1 + 1) * 2 ^ 16), ?_, by simp <;> omega⟩
          simp only [opWidth]
          rw [if_neg c1, if_neg c2, if_neg c3, if_pos c4]
        · rw [if_neg c4] at h
          by_cases c5 : p.buf p.offset = 0xfe
          · rw [if_pos c5] at h
            by_cases c6 : PacketParser.uint32 p.buf (p.offset + 1 + 4) = 0
            · rw [if_pos c6] at h
              simp only [Option.some.injEq, Prod.mk.injEq, Int.toNat_ofNat] at h
              obtain ⟨rfl, rfl⟩ := h
              refine ⟨rfl, rfl, rfl, rfl, 9 + PacketParser.uint32 p.buf (p.offset + 1), ?_,
                by simp <;> omega⟩
              simp only [opWidth]
              rw [if_neg c1, if_neg c2, if_neg c3, if_neg c4, if_pos c5, if_pos c6]
            · rw [if_neg c6] at h
              by_cases c7 : PacketParser.uint32 p.buf (p.offset + 1 + 4) < 2097152
              · rw [if_pos c7] at h
                simp only [Option.some.injEq, Prod.mk.injEq, Int.toNat_ofNat] at h
                obtain ⟨rfl, rfl⟩ := h
                refine ⟨rfl, rfl, rfl, rfl,
                  9 + (PacketParser.uint32 p.buf (p.offset + 1 + 4) * 2 ^ 32 +
                    PacketParser.uint32 p.buf (p.offset + 1)), ?_, by simp <;> omega⟩
                simp only [opWidth]
                rw [if_neg c1, if_neg c2, if_neg c3, if_neg c4, if_pos c5, if_neg c6, if_pos c7]
              · rw [if_neg c7] at h
                by_cases c8 : jsIntStr (nearestDoubleI
                      ((PacketParser.uint32 p.buf (p.offset + 1) +
                        2 ^ 32 * PacketParser.uint32 p.buf (p.offset + 1 + 4) : Nat) : Int)) =
                    intDecStr ((PacketParser.uint32 p.buf (p.offset + 1) +
                      2 ^ 32 * PacketParser.uint32 p.buf (p.offset + 1 + 4) : Nat) : Int)
                · rw [if_pos c8] at h
                  simp only [Option.some.injEq, Prod.mk.injEq] at h
                  obtain ⟨rfl, rfl⟩ := h
                  refine ⟨rfl, rfl, rfl, rfl,
                    9 + (nearestDoubleI ((PacketParser.uint32 p.buf (p.offset + 1) +
                      2 ^ 32 * PacketParser.uint32 p.buf (p.offset + 1 + 4) : Nat) : Int)).toNat,
                    ?_, by simp <;> omega⟩
                  simp only [opWidth]
                  rw [if_neg c1, if_neg c2, if_neg c3, if_neg c4, if_pos c5, if_neg c6,
                    if_neg c7, if_pos c8]
                · rw [if_neg c8] at h
                  exact absurd h (by simp)
          · rw [if_neg c5] at h
            exact absurd h (by simp)

/-- One read operation that returns normally preserves the buffer and
window and advances the cursor by exactly its wire-format width. -/
theorem runOp_spec (op : ReadOp) (p : Pkt) (v : RVal) (p' : Pkt)
    (h : runOp op p = some (v, p')) :
    p'.buf = p.buf ∧ p'.start = p.start ∧ p'.pend = p.pend ∧
    ∃ w, opWidth op p = some w ∧ p'.offset = p.offset + w := by
  cases op with
  | rInt8 =>
    simp only [runOp, Pkt.readInt8, Option.some.injEq, Prod.mk.injEq] at h
    obtain ⟨rfl, rfl⟩ := h
    exact ⟨rfl, rfl, rfl, 1, rfl, rfl⟩
  | rInt16 =>
    simp only [runOp, Pkt.readInt16, Option.some.injEq, Prod.mk.injEq] at h
    obtain ⟨rfl, rfl⟩ := h
    exact ⟨rfl, rfl, rfl, 2, rfl, rfl⟩
  | rInt24 =>
    simp only [runOp, Pkt.readInt24, Pkt.readInt16, Pkt.readInt8, Option.some.injEq,
      Prod.mk.injEq] at h
    obtain ⟨rfl, rfl⟩ := h
    exact ⟨rfl, rfl, rfl, 3, rfl, by simp <;> omega⟩
  | rInt32 =>
    simp only [runOp, Pkt.readInt32, Option.some.injEq, Prod.mk.injEq] at h
    obtain ⟨rfl, rfl⟩ := h
    exact ⟨rfl, rfl, rfl, 4, rfl, rfl⟩
  | rSInt8 =>
    simp only [runOp, Pkt.readSInt8, Option.some.injEq, Prod.mk.injEq] at h
    obtain ⟨rfl, rfl⟩ := h
    exact ⟨rfl, rfl, rfl, 1, rfl, rfl⟩
  | rSInt16 =>
    simp only [runOp, Pkt.readSInt16, Option.some.injEq, Prod.mk.injEq] at h
    obtain ⟨rfl, rfl⟩ := h
    exact ⟨rfl, rfl, rfl, 2, rfl, rfl⟩
  | rSInt32 =>
    simp only [runOp, Pkt.readSInt32, Option.some.injEq, Prod.mk.injEq] at h
    obtain ⟨rfl, rfl⟩ := h
    exact ⟨rfl, rfl, rfl, 4, rfl, rfl⟩
  | rInt64JSNumber =>
    simp only [runOp, Pkt.readInt64JSNumber, Option.some.injEq, Prod.mk.injEq] at h
    obtain ⟨rfl, rfl⟩ := h
    exact ⟨rfl, rfl, rfl, 8, rfl, rfl⟩
  | rSInt64JSNumber =>
    simp only [runOp, Pkt.readSInt64JSNumber, Option.some.injEq, Prod.mk.injEq] at h
    obtain ⟨rfl, rfl⟩ := h
    exact ⟨rfl, rfl, rfl, 8, rfl, rfl⟩
  | rInt64String =>
    simp only [runOp, Pkt.readInt64String, Option.some.injEq, Prod.mk.injEq] at h
    obtain ⟨rfl, rfl⟩ := h
    exact ⟨rfl, rfl, rfl, 8, rfl, rfl⟩
  | rSInt64String =>
    simp only [runOp, Pkt.readSInt64String, Option.some.injEq, Prod.mk.injEq] at h
    obtain ⟨rfl, rfl⟩ := h
    exact ⟨rfl, rfl, rfl, 8, rfl, rfl⟩
  | rFloat =>
    simp only [runOp, Pkt.readFloat, Option.some.injEq, Prod.mk.injEq] at h
    obtain ⟨rfl, rfl⟩ := h
    exact ⟨rfl, rfl, rfl, 4, rfl, rfl⟩
  | rDouble =>
    simp only [runOp, Pkt.readDouble, Option.some.injEq, Prod.mk.injEq] at h
    obtain ⟨rfl, rfl⟩ := h
    exact ⟨rfl, rfl, rfl, 8, rfl, rfl⟩
  | rSkip num =>
    simp only [runOp, Pkt.skip, Option.some.injEq, Prod.mk.injEq] at h
    obtain ⟨rfl, rfl⟩ := h
    exact ⟨rfl, rfl, rfl, num, rfl, rfl⟩
  | rBuffer len =>
    simp only [runOp, Pkt.readBuffer, Option.some.injEq, Prod.mk.injEq] at h
    obtain ⟨rfl, rfl⟩ := h
    exact ⟨rfl, rfl, rfl, len.getD (p.pend - p.offset), rfl, rfl⟩
  | rString len dec =>
    simp only [runOp, Pkt.readString, Option.some.injEq, Prod.mk.injEq] at h
    obtain ⟨rfl, rfl⟩ := h
    exact ⟨rfl, rfl, rfl, len.getD (p.pend - p.offset), rfl, rfl⟩
  | rLCN bns sg =>
    rcases hlcn : p.readLengthCodedNumber bns sg with _ | ⟨lv, q1⟩ <;>
      simp only [runOp, hlcn, Option.map_none', Option.map_some'] at h
    · exact absurd h (by simp)
    · simp only [Option.some.injEq, Prod.mk.injEq] at h
      obtain ⟨rfl, rfl⟩ := h
      obtain ⟨hb, hs, hp, _, w, hw, ho⟩ := readLCN_spec p bns sg lv q1 hlcn
      exact ⟨hb, hs, hp, w, hw, ho⟩
  | rLCString dec =>
    rcases hlcn : p.readLengthCodedString dec with _ | ⟨os, q1⟩ <;>
      simp only [runOp, hlcn, Option.map_none', Option.map_some'] at h
    · exact absurd h (by simp)
    · simp only [Option.some.injEq, Prod.mk.injEq] at h
      obtain ⟨rfl, rfl⟩ := h
      obtain ⟨hb, hs, hp, _, w, hw, ho⟩ := readLCString_spec p dec os q1 hlcn
      exact ⟨hb, hs, hp, w, hw, ho⟩
  | rLCBuffer =>
    rcases hlcn : p.readLengthCodedBuffer with _ | ⟨ob, q1⟩ <;>
      simp only [runOp, hlcn, Option.map_none', Option.map_some'] at h
    · exact absurd h (by simp)
    · simp only [Option.some.injEq, Prod.mk.injEq] at h
      obtain ⟨rfl, rfl⟩ := h
      obtain ⟨hb, hs, hp, _, w, hw, ho⟩ := readLCBuffer_spec p ob q1 hlcn
      exact ⟨hb, hs, hp, w, hw, ho⟩
  | rNulString dec =>
    simp only [runOp, Pkt.readNullTerminatedString, Option.some.injEq, Prod.mk.injEq] at h
    obtain ⟨rfl, rfl⟩ := h
    refine ⟨rfl, rfl, rfl,
      Pkt.nulScanAux p.buf p.blen (p.blen + 1) p.offset - p.offset + 1, rfl, ?_⟩
    have hge := nulScanAux_ge p.buf p.blen (p.blen + 1) p.offset
    simp <;> omega
  | rDateTime =>
    simp only [runOp, Pkt.readDateTime, Pkt.readInt8] at h
    by_cases hlen : p.buf p.offset = 0xfb
    · rw [if_pos hlen] at h
      simp only [Option.some.injEq, Prod.mk.injEq] at h
      obtain ⟨rfl, rfl⟩ := h
      refine ⟨rfl, rfl, rfl, 1, ?_, rfl⟩
      simp only [opWidth]
      rw [if_pos hlen]
    · rw [if_neg hlen] at h
      simp only [Option.some.injEq, Prod.mk.injEq] at h
      obtain ⟨rfl, rfl⟩ := h
      refine ⟨rfl, rfl, rfl, 1 + p.buf p.offset, ?_, by simp <;> omega⟩
      simp only [opWidth]
      rw [if_neg hlen]
  | rDateTimeString d =>
    simp only [runOp, Pkt.readDateTimeString, Pkt.readInt8, Option.some.injEq,
      Prod.mk.injEq] at h
    obtain ⟨rfl, rfl⟩ := h
    exact ⟨rfl, rfl, rfl, 1 + p.buf p.offset, rfl, by simp <;> omega⟩
  | rTimeString b =>
    simp only [runOp, Pkt.readTimeString, Pkt.readInt8, Option.some.injEq,
      Prod.mk.injEq] at h
    obtain ⟨rfl, rfl⟩ := h
    exact ⟨rfl, rfl, rfl, 1 + p.buf p.offset, rfl, by simp <;> omega⟩

/-- **C8.**  (i) Every read operation that returns normally leaves the
buffer and window untouched and advances the cursor by exactly the number
of bytes it consumed (its wire-format width, `opWidth`).  (ii) For every
packet whose cursor starts at `start + 4` inside a window with
`start + 4 ≤ end`, any sequence of successful read operations — each
landing within the window — leaves the cursor with
`start ≤ offset ≤ end`. -/
theorem c8_cursor_invariant :
    (∀ (op : ReadOp) (p : Pkt) (v : RVal) (p' : Pkt), runOp op p = some (v, p') →
      p'.buf = p.buf ∧ p'.start = p.start ∧ p'.pend = p.pend ∧
      ∃ w, opWidth op p = some w ∧ p'.offset = p.offset + w) ∧
    (∀ (ops : List ReadOp) (p q : Pkt), p.offset = p.start + 4 → p.start + 4 ≤ p.pend →
      RunSeqOK p ops q → p.start ≤ q.offset ∧ q.offset ≤ p.pend) := by
  have gen : ∀ (ops : List ReadOp) (p q : Pkt), p.start ≤ p.offset → p.offset ≤ p.pend →
      RunSeqOK p ops q → p.start ≤ q.offset ∧ q.offset ≤ p.pend := by
    intro ops
    induction ops with
    | nil =>
      intro p q h1 h2 hrun
      cases hrun
      exact ⟨h1, h2⟩
    | cons op ops ih =>
      intro p q h1 h2 hrun
      cases hrun with
      | cons hstep hend hrest =>
        rename_i p1 v
        obtain ⟨hb, hs, hp, w, hw, ho⟩ := runOp_spec op p v p1 hstep
        have hrec := ih p1 q (by rw [hs]; omega) (by omega) hrest
        rw [hs, hp] at hrec
        exact hrec
  exact ⟨runOp_spec, fun ops p q h1 h2 hrun => gen ops p q (by omega) (by omega) hrun⟩


/-! #### C2 — length-coded number round-trip: decimal-string lemmas -/

/-- A digit renders as its ASCII code. -/
theorem digitChar_toNat (d : Nat) (h : d < 10) : (digitChar d).toNat = 48 + d := by
  interval_cases d <;> rfl

/-- `decDigitsAux` emits at least `k + 1` digits for a value ≥ `10^k`. -/
theorem decDigitsAux_length_ge : ∀ (fuel k n : Nat), 10 ^ k ≤ n → k < fuel →
    k + 1 ≤ (decDigitsAux fuel n).length := by
  intro fuel
  induction fuel with
  | zero => intro k n _ hk; omega
  | succ f ih =>
    intro k n hn hk
    simp only [decDigitsAux]
    split
    · rename_i h10
      have hk0 : k = 0 := by
        by_contra hne
        have h1 : (10 : Nat) ^ 1 ≤ 10 ^ k := Nat.pow_le_pow_right (by norm_num) (by omega)
        simp only [pow_one] at h1
        omega
      subst hk0
      simp
    · rename_i h10
      match k with
      | 0 =>
        simp only [List.length_append, List.length_cons, List.length_nil]
        omega
      | k' + 1 =>
        have hdiv : 10 ^ k' ≤ n / 10 := by
          rw [Nat.le_div_iff_mul_le (by norm_num)]
          calc 10 ^ k' * 10 = 10 ^ (k' + 1) := (pow_succ 10 k').symm
          _ ≤ n := hn
        have hlen := ih k' (n / 10) hdiv (by omega)
        simp only [List.length_append, List.length_cons, List.length_nil]
        omega

/-- A value ≥ `10^k` renders with at least `k + 1` characters. -/
theorem decStr_length_ge (k n : Nat) (hn : 10 ^ k ≤ n) (hk : k < 30) :
    k + 1 ≤ (decStr n).length := by
  have h := decDigitsAux_length_ge 30 k n hn (by omega)
  simpa [decStr, String.length] using h

/-- Folding the digit-accumulation step over a rendered value recovers it
(with the accumulator scaled by the digit count). -/
theorem decDigitsAux_foldl : ∀ (fuel n acc : Nat), n < 10 ^ fuel →
    (decDigitsAux fuel n).foldl (fun a c => a * 10 + (c.toNat - 48)) acc =
      acc * 10 ^ (decDigitsAux fuel n).length + n := by
  intro fuel
  induction fuel with
  | zero =>
    intro n acc hn
    simp only [pow_zero, Nat.lt_one_iff] at hn
    subst hn
    simp [decDigitsAux]
  | succ f ih =>
    intro n acc hn
    simp only [decDigitsAux]
    split
    · rename_i h10
      simp only [List.foldl_cons, List.foldl_nil, List.length_cons, List.length_nil,
        digitChar_toNat n h10, pow_one]
      omega
    · rename_i h10
      have hdiv : n / 10 < 10 ^ f := by
        rw [Nat.div_lt_iff_lt_mul (by norm_num)]
        calc n < 10 ^ (f + 1) := hn
        _ = 10 ^ f * 10 := pow_succ 10 f
      rw [List.foldl_append, ih (n / 10) acc hdiv]
      simp only [List.foldl_cons, List.foldl_nil, List.length_append, List.length_cons,
        List.length_nil, digitChar_toNat (n % 10) (Nat.mod_lt _ (by norm_num))]
      have hstep : ∀ X : Nat,
          (acc * X + n / 10) * 10 + (48 + n % 10 - 48) = acc * (X * 10) + n := by
        intro X
        have hnm : n / 10 * 10 + n % 10 = n := by omega
        calc (acc * X + n / 10) * 10 + (48 + n % 10 - 48)
            = acc * (X * 10) + (n / 10 * 10 + (48 + n % 10 - 48)) := by ring
        _ = acc * (X * 10) + n := by omega
      rw [hstep, pow_succ]

/-- Parsing the rendered decimal of `n` recovers `n` (for every `n` below
`10^30`, far beyond the 64-bit domain). -/
theorem strToNatDec_decStr (n : Nat) (h : n < 10 ^ 30) : strToNatDec (decStr n) = n := by
  have hf := decDigitsAux_foldl 30 n 0 h
  simpa [strToNatDec, decStr] using hf

/-- `pokeLE` leaves bytes outside `[a, a + k)` untouched. -/
theorem pokeLE_out : ∀ (k : Nat) (buf : Nat → Nat) (a v x : Nat), x < a ∨ a + k ≤ x →
    Pkt.pokeLE buf a v k x = buf x := by
  intro k
  induction k with
  | zero => intro buf a v x _; rfl
  | succ m ih =>
    intro buf a v x hx
    simp only [Pkt.pokeLE]
    rw [ih (Function.update buf a (v % 256)) (a + 1) (v / 256) x (by omega)]
    exact Function.update_noteq (by omega) _ _

/-- `pokeLE` stores the little-endian bytes of `v`. -/
theorem pokeLE_in : ∀ (k : Nat) (buf : Nat → Nat) (a v j : Nat), j < k →
    Pkt.pokeLE buf a v k (a + j) = v / 256 ^ j % 256 := by
  intro k
  induction k with
  | zero => intro _ _ _ j h; omega
  | succ m ih =>
    intro buf a v j hj
    simp only [Pkt.pokeLE]
    match j with
    | 0 =>
      rw [show a + 0 = a from rfl, pokeLE_out m _ (a + 1) _ a (by omega),
        Function.update_same]
      simp
    | j' + 1 =>
      rw [show a + (j' + 1) = (a + 1) + j' from by omega,
        ih (Function.update buf a (v % 256)) (a + 1) (v / 256) j' (by omega),
        Nat.div_div_eq_div_mul, ← pow_succ']

/-- Reading a 32-bit little-endian word back from its four poked bytes. -/
theorem uint32_pokeLE4 (buf : Nat → Nat) (a v : Nat) :
    PacketParser.uint32 (Pkt.pokeLE buf a v 4) a = v % 2 ^ 32 := by
  have h0 := pokeLE_in 4 buf a v 0 (by norm_num)
  have h1 := pokeLE_in 4 buf a v 1 (by norm_num)
  have h2 := pokeLE_in 4 buf a v 2 (by norm_num)
  have h3 := pokeLE_in 4 buf a v 3 (by norm_num)
  rw [Nat.add_zero] at h0
  simp only [PacketParser.uint32, h0, h1, h2, h3]
  norm_num
  omega

/-- `uint32` only looks at its four bytes. -/
theorem uint32_eq_of (f g : Nat → Nat) (a : Nat) (h0 : f a = g a) (h1 : f (a + 1) = g (a + 1))
    (h2 : f (a + 2) = g (a + 2)) (h3 : f (a + 3) = g (a + 3)) :
    PacketParser.uint32 f a = PacketParser.uint32 g a := by
  simp only [PacketParser.uint32, h0, h1, h2, h3]

/-- **C8 (witness packet).**  A 13-byte window holding bytes 1..9 after
the header. -/
def c8p0 : Pkt := Pkt.new 0 (listBuf [9, 0, 0, 0, 1, 2, 3, 4, 5, 6, 7, 8, 9]) 13 0 13

/-- **C8 (witness, after one byte read).** -/
def c8p1 : Pkt :=
  { seq := 0, buf := listBuf [9, 0, 0, 0, 1, 2, 3, 4, 5, 6, 7, 8, 9], blen := 13, start := 0,
    offset := 5, pend := 13 }

/-- **C8 (witness, after a byte and a 16-bit read).** -/
def c8p2 : Pkt :=
  { seq := 0, buf := listBuf [9, 0, 0, 0, 1, 2, 3, 4, 5, 6, 7, 8, 9], blen := 13, start := 0,
    offset := 7, pend := 13 }

/-- **C8 (witness).**  The invariant theorem applied to the concrete
sequence `readInt8(); readInt16()` on `c8p0`, and the per-operation width
equation applied to the `readInt16` step. -/
theorem c8_witness :
    c8p0.offset = c8p0.start + 4 ∧ c8p0.start + 4 ≤ c8p0.pend ∧
    (c8p0.start ≤ c8p2.offset ∧ c8p2.offset ≤ c8p0.pend) ∧
    (∃ w, opWidth .rInt16 c8p1 = some w ∧ c8p2.offset = c8p1.offset + w) :=
  ⟨rfl, by decide,
    c8_cursor_invariant.2 [.rInt8, .rInt16] c8p0 c8p2 rfl (by decide)
      (RunSeqOK.cons rfl (by decide) (RunSeqOK.cons rfl (by decide) (RunSeqOK.nil c8p2))),
    (c8_cursor_invariant.1 .rInt16 c8p1 (.vnat 0x0302) c8p2 rfl).2.2.2⟩


/-- The claim's input representation: values below `2^53` are passed as JS
numbers, larger ones as their decimal strings. -/
def lcnArgOf (n : Nat) : Pkt.LcnArg :=
  if n < 2 ^ 53 then .jsNum n else .jsStr (decStr n)

/-- The byte count of the narrowest length-coded form that fits `n`:
1 byte below `0xfb`, the `0xfc` 2-byte form below `2^16`, the `0xfd`
3-byte form below `2^24`, and the 9-byte `0xfe` form exactly for
`n > 0xffffff`. -/
def lcnFormWidth (n : Nat) : Nat :=
  if n < 0xfb then 1 else if n < 0x10000 then 3 else if n < 0x1000000 then 4 else 9

/-- The leading byte of the narrowest length-coded form of `n`. -/
def lcnFormTag (n : Nat) : Nat :=
  if n < 0xfb then n else if n < 0x10000 then 0xfc else if n < 0x1000000 then 0xfd else 0xfe

/-- What reading the encoding of `n` back yields: the exact number below
`2^53`; above, the nearest double to `n` whenever that double's shortest
round-trip decimal (JS `toString`) equals `n`'s decimal — so the returned
number still renders as `n` — and otherwise `n`'s decimal string. -/
def lcnRoundTrip (n : Nat) : Pkt.LcnVal :=
  if n < 2 ^ 53 then .num n
  else if jsIntStr (nearestDoubleI (n : Int)) = intDecStr (n : Int) then
    .num (nearestDoubleI (n : Int))
  else .str (intDecStr (n : Int))

/-- Writing a value below `2^24` with the narrow forms and reading it back
from the same position recovers it exactly. -/
theorem writeLcnSmall_roundtrip (p : Pkt) (v : Nat) (hv : v < 0x1000000) :
    ∃ q : Pkt, p.writeLcnSmall v = some q ∧
      q.start = p.start ∧ q.pend = p.pend ∧ q.blen = p.blen ∧
      q.offset = p.offset + lcnFormWidth v ∧ q.buf p.offset = lcnFormTag v ∧
      ({ q with offset := p.offset } : Pkt).readLengthCodedNumber false false =
        some (.num (v : Nat), q) := by
  by_cases h1 : v < 0xfb
  · refine ⟨p.writeInt8 v, ?_, rfl, rfl, rfl, ?_, ?_, ?_⟩
    · simp only [Pkt.writeLcnSmall]
      rw [if_pos h1]
    · simp only [Pkt.writeInt8, lcnFormWidth]
      rw [if_pos h1]
    · simp only [Pkt.writeInt8, lcnFormTag, Function.update_same]
      rw [if_pos h1]
    · simp only [Pkt.readLengthCodedNumber, Pkt.readInt8, Pkt.writeInt8,
        Function.update_same]
      rw [if_pos h1]
  · by_cases h2 : v < 0x10000
    · refine ⟨(p.writeInt8 0xfc).writeInt16 v, ?_, rfl, rfl, rfl, ?_, ?_, ?_⟩
      · simp only [Pkt.writeLcnSmall]
        rw [if_neg h1, if_pos h2]
      · simp only [Pkt.writeInt8, Pkt.writeInt16, lcnFormWidth]
        rw [if_neg h1, if_pos h2]
      · simp only [Pkt.writeInt8, Pkt.writeInt16, lcnFormTag]
        rw [Function.update_noteq (by omega : p.offset ≠ p.offset + 1 + 1),
          Function.update_noteq (by omega : p.offset ≠ p.offset + 1),
          Function.update_same, if_neg h1, if_pos h2]
      · simp only [Pkt.readLengthCodedNumber, Pkt.readLengthCodedNumberExt, Pkt.readInt8,
          Pkt.writeInt8, Pkt.writeInt16]
        rw [Function.update_noteq (by omega : p.offset ≠ p.offset + 1 + 1),
          Function.update_noteq (by omega : p.offset ≠ p.offset + 1),
          Function.update_same,
          if_neg (by norm_num : ¬ ((0xfc : Nat) < 251)),
          if_neg (by norm_num : ¬ ((0xfc : Nat) = 0xfb)),
          if_pos rfl,
          Function.update_noteq (by omega : p.offset + 1 ≠ p.offset + 1 + 1),
          Function.update_same, Function.update_same]
        simp only [Option.some.injEq, Prod.mk.injEq, Pkt.LcnVal.num.injEq]
        refine ⟨by exact_mod_cast (by omega : v % 256 + v / 256 % 256 * 2 ^ 8 = v), trivial⟩
    · refine ⟨((p.writeInt8 0xfd).writeInt8 (v % 256)).writeInt16 (v / 256), ?_, rfl, rfl,
        rfl, ?_, ?_, ?_⟩
      · simp only [Pkt.writeLcnSmall, Pkt.writeInt24]
        rw [if_neg h1, if_neg h2, if_pos hv]
      · simp only [Pkt.writeInt8, Pkt.writeInt16, lcnFormWidth]
        rw [if_neg h1, if_neg h2, if_pos hv]
      · simp only [Pkt.writeInt8, Pkt.writeInt16, lcnFormTag]
        rw [Function.update_noteq (by omega : p.offset ≠ p.offset + 1 + 1 + 1),
          Function.update_noteq (by omega : p.offset ≠ p.offset + 1 + 1),
          Function.update_noteq (by omega : p.offset ≠ p.offset + 1),
          Function.update_same, if_neg h1, if_neg h2, if_pos hv]
      · simp only [Pkt.readLengthCodedNumber, Pkt.readLengthCodedNumberExt, Pkt.readInt8,
          Pkt.writeInt8, Pkt.writeInt16]
        rw [Function.update_noteq (by omega : p.offset ≠ p.offset + 1 + 1 + 1),
          Function.update_noteq (by omega : p.offset ≠ p.offset + 1 + 1),
          Function.update_noteq (by omega : p.offset ≠ p.offset + 1),
          Function.update_same,
          if_neg (by norm_num : ¬ ((0xfd : Nat) < 251)),
          if_neg (by norm_num : ¬ ((0xfd : Nat) = 0xfb)),
          if_neg (by norm_num : ¬ ((0xfd : Nat) = 0xfc)),
          if_pos rfl,
          Function.update_noteq (by omega : p.offset + 1 ≠ p.offset + 1 + 1 + 1),
          Function.update_noteq (by omega : p.offset + 1 ≠ p.offset + 1 + 1),
          Function.update_same,
          Function.update_noteq (by omega : p.offset + 1 + 1 ≠ p.offset + 1 + 1 + 1),
          Function.update_same, Function.update_same]
        simp only [Option.some.injEq, Prod.mk.injEq, Pkt.LcnVal.num.injEq]
        refine ⟨by exact_mod_cast
          (by omega : v % 256 + v / 256 % 256 * 2 ^ 8 + v / 256 / 256 % 256 * 2 ^ 16 = v),
          trivial⟩


/-- Reading back the `0xfe` + 8-byte form written for a value in
`[2^24, 2^64)`: the reader recovers the exact value as a number below
`2^53` and applies the `Long`-and-`toString` check above it. -/
theorem read_pokedWide (p : Pkt) (lv : Nat) (q : Pkt) (hlo : 2 ^ 24 ≤ lv) (hhi : lv < 2 ^ 64)
    (hq : q = { p with
      buf := Pkt.pokeLE (Pkt.pokeLE (Function.update p.buf p.offset 0xfe) (p.offset + 1)
        (lv % 2 ^ 32) 4) (p.offset + 1 + 4) (lv / 2 ^ 32) 4
      offset := p.offset + 1 + 8 }) :
    ({ q with offset := p.offset } : Pkt).readLengthCodedNumber false false =
      some (lcnRoundTrip lv, q) := by
  subst hq
  have htag : Pkt.pokeLE (Pkt.pokeLE (Function.update p.buf p.offset 0xfe) (p.offset + 1)
      (lv % 2 ^ 32) 4) (p.offset + 1 + 4) (lv / 2 ^ 32) 4 p.offset = 0xfe := by
    rw [pokeLE_out 4 _ (p.offset + 1 + 4) _ p.offset (by omega),
      pokeLE_out 4 _ (p.offset + 1) _ p.offset (by omega),
      Function.update_same]
  have hw0 : PacketParser.uint32 (Pkt.pokeLE (Pkt.pokeLE (Function.update p.buf p.offset 0xfe)
      (p.offset + 1) (lv % 2 ^ 32) 4) (p.offset + 1 + 4) (lv / 2 ^ 32) 4) (p.offset + 1) =
      lv % 2 ^ 32 := by
    have he := uint32_eq_of
      (Pkt.pokeLE (Pkt.pokeLE (Function.update p.buf p.offset 0xfe) (p.offset + 1)
        (lv % 2 ^ 32) 4) (p.offset + 1 + 4) (lv / 2 ^ 32) 4)
      (Pkt.pokeLE (Function.update p.buf p.offset 0xfe) (p.offset + 1) (lv % 2 ^ 32) 4)
      (p.offset + 1)
      (pokeLE_out 4 _ (p.offset + 1 + 4) _ (p.offset + 1) (by omega))
      (pokeLE_out 4 _ (p.offset + 1 + 4) _ (p.offset + 1 + 1) (by omega))
      (pokeLE_out 4 _ (p.offset + 1 + 4) _ (p.offset + 1 + 2) (by omega))
      (pokeLE_out 4 _ (p.offset + 1 + 4) _ (p.offset + 1 + 3) (by omega))
    rw [he, uint32_pokeLE4]
    omega
  have hw1 : PacketParser.uint32 (Pkt.pokeLE (Pkt.pokeLE (Function.update p.buf p.offset 0xfe)
      (p.offset + 1) (lv % 2 ^ 32) 4) (p.offset + 1 + 4) (lv / 2 ^ 32) 4) (p.offset + 1 + 4) =
      lv / 2 ^ 32 := by
    rw [uint32_pokeLE4]
    omega
  simp only [Pkt.readLengthCodedNumber, Pkt.readInt8]
  rw [htag]
  rw [if_neg (by norm_num : ¬ ((0xfe : Nat) < 251))]
  simp only [Pkt.readLengthCodedNumberExt, Pkt.readInt32, Bool.false_eq_true, ite_false]
  rw [if_neg (by norm_num : ¬ ((0xfe : Nat) = 0xfb)),
    if_neg (by norm_num : ¬ ((0xfe : Nat) = 0xfc)),
    if_neg (by norm_num : ¬ ((0xfe : Nat) = 0xfd)),
    if_pos trivial]
  rw [hw0, hw1]
  by_cases hr1 : lv < 2 ^ 32
  · rw [if_pos (by omega : lv / 2 ^ 32 = 0)]
    simp only [lcnRoundTrip]
    rw [if_pos (by omega : lv < 2 ^ 53)]
    simp only [Option.some.injEq, Prod.mk.injEq, Pkt.LcnVal.num.injEq]
    exact ⟨by exact_mod_cast (by omega : lv % 2 ^ 32 = lv), trivial⟩
  · by_cases hr2 : lv < 2 ^ 53
    · rw [if_neg (by omega : ¬ (lv / 2 ^ 32 = 0)),
        if_pos (by omega : lv / 2 ^ 32 < 2097152)]
      simp only [lcnRoundTrip]
      rw [if_pos (by omega : lv < 2 ^ 53)]
      simp only [Option.some.injEq, Prod.mk.injEq, Pkt.LcnVal.num.injEq]
      exact ⟨by exact_mod_cast (by omega : lv / 2 ^ 32 * 2 ^ 32 + lv % 2 ^ 32 = lv), trivial⟩
    · rw [if_neg (by omega : ¬ (lv / 2 ^ 32 = 0)),
        if_neg (by omega : ¬ (lv / 2 ^ 32 < 2097152))]
      rw [show (lv % 2 ^ 32 + 2 ^ 32 * (lv / 2 ^ 32) : Nat) = lv from by omega]
      simp only [lcnRoundTrip]
      rw [if_neg (by omega : ¬ (lv < 2 ^ 53))]


/-- Writing via the `longValue` path for a value in `[2^24, 2^64)` does not
collapse to a narrow form: it emits the `0xfe` tag plus two 32-bit words
(9 bytes) and reads back per `lcnRoundTrip`. -/
theorem writeLcnLong_roundtrip (p : Pkt) (lv : Nat) (hlo : 2 ^ 24 ≤ lv) (hhi : lv < 2 ^ 64) :
    ∃ q : Pkt, p.writeLcnLong lv = some q ∧
      q.start = p.start ∧ q.pend = p.pend ∧ q.blen = p.blen ∧
      q.offset = p.offset + 9 ∧ q.buf p.offset = 0xfe ∧
      ({ q with offset := p.offset } : Pkt).readLengthCodedNumber false false =
        some (lcnRoundTrip lv, q) := by
  have hread := read_pokedWide p lv _ hlo hhi rfl
  refine ⟨{ p with
      buf := Pkt.pokeLE (Pkt.pokeLE (Function.update p.buf p.offset 0xfe) (p.offset + 1)
        (lv % 2 ^ 32) 4) (p.offset + 1 + 4) (lv / 2 ^ 32) 4
      offset := p.offset + 1 + 8 }, ?_, rfl, rfl, rfl, ?_, ?_, hread⟩
  · simp only [Pkt.writeLcnLong, Pkt.writeInt8]
    rw [if_neg (by omega : ¬ (lv / 2 ^ 32 = 0 ∧ lv % 2 ^ 32 < 2 ^ 24))]
  · show p.offset + 1 + 8 = p.offset + 9
    omega
  · show Pkt.pokeLE (Pkt.pokeLE (Function.update p.buf p.offset 0xfe) (p.offset + 1)
      (lv % 2 ^ 32) 4) (p.offset + 1 + 4) (lv / 2 ^ 32) 4 p.offset = 0xfe
    rw [pokeLE_out 4 _ (p.offset + 1 + 4) _ p.offset (by omega),
      pokeLE_out 4 _ (p.offset + 1) _ p.offset (by omega),
      Function.update_same]

/-- **C2.**  Writing any `n < 2^64` (as a JS number below `2^53`, else as
its decimal string) with `writeLengthCodedNumber` and reading back from
the same position with `readLengthCodedNumber` succeeds: the encoder
emits the narrowest form that fits (`lcnFormWidth` bytes led by
`lcnFormTag`, the 9-byte `0xfe` form exactly above `0xffffff`), and the
reader returns `lcnRoundTrip n` — the exact number below `2^53`, and
above that the nearest double whenever its JS `toString` equals `n`'s
decimal, otherwise the decimal string.  (The claim's "as a number when
exactly representable" facet is not the code's test; see the
counterexample.) -/
theorem c2_lcn_write_read (p : Pkt) (n : Nat) (hn : n < 2 ^ 64) :
    ∃ q : Pkt, p.writeLengthCodedNumber (lcnArgOf n) = some q ∧
      q.start = p.start ∧ q.pend = p.pend ∧ q.blen = p.blen ∧
      q.offset = p.offset + lcnFormWidth n ∧ q.buf p.offset = lcnFormTag n ∧
      ({ q with offset := p.offset } : Pkt).readLengthCodedNumber false false =
        some (lcnRoundTrip n, q) := by
  by_cases hsmall : n < 0x1000000
  · obtain ⟨q, hw, h1, h2, h3, h4, h5, h6⟩ := writeLcnSmall_roundtrip p n hsmall
    refine ⟨q, ?_, h1, h2, h3, h4, h5, ?_⟩
    · rw [show lcnArgOf n = .jsNum n from by
        simp only [lcnArgOf]
        rw [if_pos (by omega : n < 2 ^ 53)]]
      simp only [Pkt.writeLengthCodedNumber]
      rw [if_neg (by omega : ¬ ((0xffffff : Nat) < n))]
      exact hw
    · rw [h6]
      simp only [lcnRoundTrip]
      rw [if_pos (by omega : n < 2 ^ 53)]
  · obtain ⟨q, hw, h1, h2, h3, h4, h5, h6⟩ := writeLcnLong_roundtrip p n (by omega) hn
    refine ⟨q, ?_, h1, h2, h3, ?_, ?_, h6⟩
    · by_cases h53 : n < 2 ^ 53
      · rw [show lcnArgOf n = .jsNum n from by
          simp only [lcnArgOf]
          rw [if_pos h53]]
        simp only [Pkt.writeLengthCodedNumber]
        rw [if_pos (by omega : (0xffffff : Nat) < n),
          show Pkt.jsLongFromNumberU n = n from by
            simp only [Pkt.jsLongFromNumberU]
            rw [if_pos hn]]
        exact hw
      · have h53' : 2 ^ 53 ≤ n := Nat.le_of_not_lt h53
        rw [show lcnArgOf n = .jsStr (decStr n) from by
          simp only [lcnArgOf]
          rw [if_neg h53]]
        simp only [Pkt.writeLengthCodedNumber]
        rw [if_pos (show 8 ≤ (decStr n).length from by
            have hd := decStr_length_ge 15 n (le_trans (by norm_num) h53') (by norm_num)
            omega),
          strToNatDec_decStr n (lt_of_lt_of_le hn (by norm_num)), Nat.mod_eq_of_lt hn]
        exact hw
    · rw [h4, show lcnFormWidth n = 9 from by
        simp only [lcnFormWidth]
        rw [if_neg (by omega : ¬ (n < 0xfb)), if_neg (by omega : ¬ (n < 0x10000)),
          if_neg (by omega : ¬ (n < 0x1000000))]]
    · rw [h5, show lcnFormTag n = 0xfe from by
        simp only [lcnFormTag]
        rw [if_neg (by omega : ¬ (n < 0xfb)), if_neg (by omega : ¬ (n < 0x10000)),
          if_neg (by omega : ¬ (n < 0x1000000))]]

/-- **C2 (packet).**  A 16-byte zero buffer with the cursor at the payload
start, used by the C2 counterexample and witness. -/
def c2pkt : Pkt := Pkt.new 0 (listBuf []) 16 0 16

set_option maxRecDepth 100000 in
/-- **C2 (counterexample).**  `n = 2^60` is exactly representable as a
double (`nearestDoubleI` fixes it), yet writing and reading it back
yields the decimal string, not a number: the code keeps the number only
when the double's shortest round-trip rendering equals the exact decimal,
and JS renders the double `2^60` as `"1152921504606847000"`, not
`"1152921504606846976"`. -/
theorem c2_counterexample :
    nearestDoubleI ((2 ^ 60 : Nat) : Int) = ((2 ^ 60 : Nat) : Int) ∧
    ((c2pkt.writeLengthCodedNumber (lcnArgOf (2 ^ 60))).bind
        (fun q => ({ q with offset := c2pkt.offset } : Pkt).readLengthCodedNumber false false)).map
      Prod.fst = some (.str "1152921504606846976") := by
  exact ⟨rfl, rfl⟩

/-- **C2 (witness).**  The round-trip theorem applied at `n = 300` on the
concrete packet `c2pkt`, the bound `300 < 2^64` discharged there. -/
theorem c2_witness :
    ∃ q : Pkt, c2pkt.writeLengthCodedNumber (lcnArgOf 300) = some q ∧
      q.start = c2pkt.start ∧ q.pend = c2pkt.pend ∧ q.blen = c2pkt.blen ∧
      q.offset = c2pkt.offset + lcnFormWidth 300 ∧ q.buf c2pkt.offset = lcnFormTag 300 ∧
      ({ q with offset := c2pkt.offset } : Pkt).readLengthCodedNumber false false =
        some (lcnRoundTrip 300, q) :=
  c2_lcn_write_read c2pkt 300 (by norm_num)


end MySQL2
